import Mathlib

/-!
Verification development for the `bayesian_calculator` discrimination engine
(`src/wasm/bayesian_calculator/src/{lib,threshold,sensor_analysis,timeline,types}.rs`).

Shallow embedding conventions:
* Rust `f64` values that flow through arithmetic are modelled as `ℚ` (exact
  rationals); the engine only compares, adds, divides and takes absolute
  values of probabilities and durations, so the rational model matches the
  source wherever no rounding or non-finite value is involved.  A separate
  four-point model `F64` (`nan`, `±∞`, finite) is used where the behaviour on
  non-finite inputs is itself the property under study
  (`clamp_preserve_discrimination`).
* Rust `i64` durations and millisecond timestamps are modelled as `ℤ`.
* Rust `HashMap`/`FxHashMap` values are modelled as association lists with
  insert-or-replace semantics; iteration order of the model is a fixed
  deterministic order (the source's hash iteration order is arbitrary, and no
  property proved here depends on it beyond per-key content).
* Rust's stable `sort_by`/`sort_by_key` are modelled by `List.insertionSort`
  with a non-strict comparison, which is the same stable sort function:
  both produce the unique sorted list in which elements comparing equal keep
  their original relative order.
* Rust `while` loops whose bound is data-dependent (the binary searches) are
  modelled with an explicit fuel argument large enough to never run out, so
  that every definition computes by kernel reduction.
-/

deriving instance DecidableEq for Except

namespace BayesianGen

/-- `types.rs` `TimePeriod`.  The Rust field `end` is called `stop` here
(`end` is a Lean keyword); `start` and `stop` are ISO 8601 strings. -/
structure TimePeriod where
  id : String
  start : String
  stop : String
  is_true_period : Bool
  label : Option String
deriving DecidableEq, Repr

/-- `types.rs` `HAHistoryEntry`.  The `attributes` payload is an opaque
JSON value the engine never inspects; it is modelled as `Option Unit`. -/
structure HAHistoryEntry where
  state : String
  last_changed : String
  last_updated : String
  attributes : Option Unit
deriving DecidableEq, Repr

instance : Inhabited HAHistoryEntry := ⟨⟨"", "", "", none⟩⟩

/-- `sensor_analysis.rs` `ValueDuration`: one constant-value chunk,
`value` a (finite) f64 and `duration` in milliseconds (i64). -/
structure ValueDuration where
  value : ℚ
  duration : ℤ
deriving DecidableEq, Repr

instance : Inhabited ValueDuration := ⟨⟨0, 0⟩⟩

/-- `sensor_analysis.rs` `NumericStateStats`. -/
structure NumericStateStats where
  is_numeric : Bool
  min : Option ℚ
  max : Option ℚ
  true_chunks : List ValueDuration
  false_chunks : List ValueDuration
deriving DecidableEq, Repr

/-- `threshold.rs` `OptimalThresholds`: the membership test
`above < value <= below`, either bound optional. -/
structure OptimalThresholds where
  above : Option ℚ
  below : Option ℚ
deriving DecidableEq, Repr

/-- `types.rs` `SensorChunk`. -/
structure SensorChunk where
  sensor_value : ℚ
  duration : ℤ
  desired_output : Bool
deriving DecidableEq, Repr

/-- `types.rs` `StateChunk`. -/
structure StateChunk where
  state : String
  duration : ℤ
  desired_output : Bool
deriving DecidableEq, Repr

/-- `types.rs` `StateSegment`.  The Rust field `end` is called `stop` here. -/
structure StateSegment where
  start : ℤ
  stop : ℤ
  state : String
  value : Option ℚ
  is_true_period : Bool
deriving DecidableEq, Repr

/-- `types.rs` `StateAnalysis`. -/
structure StateAnalysis where
  true_occurrences : ℕ
  false_occurrences : ℕ
deriving DecidableEq, Repr

/-- `types.rs` `TimelineEntryType`. -/
inductive TimelineEntryType where
  | StateChange
  | PeriodStart
  | PeriodEnd
deriving DecidableEq, Repr

/-- `types.rs` `TimelineEntry`. -/
structure TimelineEntry where
  time : ℤ
  entry_type : TimelineEntryType
  state : Option String
  value : Option ℚ
  is_true_period : Option Bool
deriving DecidableEq, Repr

/-- `types.rs` `EntityProbability` (the result row). -/
structure EntityProbability where
  entity_id : String
  state : String
  prob_given_true : ℚ
  prob_given_false : ℚ
  discrimination_power : ℚ
  true_occurrences : ℕ
  false_occurrences : ℕ
  total_true_periods : ℕ
  total_false_periods : ℕ
  numeric_stats : Option NumericStateStats
  optimal_thresholds : Option OptimalThresholds
deriving DecidableEq, Repr

/-! ### Parsing of state strings as f64 (`str::parse::<f64>()`)

`rust_parse_f64` models Rust's `f64` parsing for finite results as an exact
rational: optional sign, decimal digits with optional fraction (at least one
digit overall) and optional exponent, consuming the whole string.
`is_f64_parseable` models `parse::<f64>().is_ok()` and additionally accepts
the non-finite spellings `inf` / `infinity` / `nan` (with optional sign,
ASCII case-insensitive) that Rust also accepts. -/

/-- Numeric value of a list of ASCII digits, most significant first. -/
def digits_to_nat (ds : List Char) : ℕ :=
  ds.foldl (fun acc c => 10 * acc + (c.toNat - 48)) 0

/-- Parse an unsigned decimal mantissa `digits [. digits]` (at least one digit
in total), returning its value and the unconsumed remainder. -/
def parse_mantissa (cs : List Char) : Option (ℚ × List Char) :=
  let (d1, r1) := cs.span Char.isDigit
  match r1 with
  | '.' :: r2 =>
    let (d2, r3) := r2.span Char.isDigit
    if d1.isEmpty && d2.isEmpty then none
    else some (((digits_to_nat d1 : ℚ) + (digits_to_nat d2 : ℚ) / ((10 : ℚ) ^ d2.length)), r3)
  | _ =>
    if d1.isEmpty then none else some ((digits_to_nat d1 : ℚ), r1)

/-- Parse an optional exponent suffix `e|E [+|-] digits`, returning the scale
factor applied to the mantissa; the whole remainder must be consumed. -/
def parse_exponent (cs : List Char) : Option ℚ :=
  match cs with
  | [] => some 1
  | e :: r1 =>
    if e = 'e' ∨ e = 'E' then
      let (sgn, r2) : Bool × List Char :=
        match r1 with
        | '+' :: r => (false, r)
        | '-' :: r => (true, r)
        | r => (false, r)
      let (ds, r3) := r2.span Char.isDigit
      if ds.isEmpty ∨ ¬ r3.isEmpty then none
      else if sgn then some (1 / (10 : ℚ) ^ digits_to_nat ds)
      else some ((10 : ℚ) ^ digits_to_nat ds)
    else none

/-- Strip an optional leading sign, returning `(negative?, rest)`. -/
def strip_sign (cs : List Char) : Bool × List Char :=
  match cs with
  | '+' :: r => (false, r)
  | '-' :: r => (true, r)
  | r => (false, r)

/-- Finite-domain model of `str::parse::<f64>()` as an exact rational.
Strings denoting non-finite values (`inf`, `nan`, …) yield `none`; the
development only tracks finite f64 values through arithmetic. -/
def rust_parse_f64 (s : String) : Option ℚ :=
  let (neg, cs) := strip_sign s.data
  match parse_mantissa cs with
  | none => none
  | some (m, rest) =>
    match parse_exponent rest with
    | none => none
    | some scale => some (if neg then -(m * scale) else m * scale)

/-- The non-finite spellings accepted by Rust's `f64` parser (after the
optional sign): `inf`, `infinity`, `nan`, ASCII case-insensitive. -/
def is_inf_nan_spelling (cs : List Char) : Bool :=
  let low := cs.map Char.toLower
  low = "inf".data ∨ low = "infinity".data ∨ low = "nan".data

/-- Model of `s.parse::<f64>().is_ok()`. -/
def is_f64_parseable (s : String) : Bool :=
  (rust_parse_f64 s).isSome || is_inf_nan_spelling (strip_sign s.data).2

/-! ### Timestamp parsing (`parse_timestamp` in `sensor_analysis.rs` / `timeline.rs`)

The source delegates to `chrono::DateTime::parse_from_rfc3339` and
`timestamp_millis()`, falling back to `0` on any parse error.  The model
parses RFC 3339 `YYYY-MM-DDThh:mm:ss[.frac](Z|±hh:mm)` with full date
validation (month lengths, leap years), truncates fractional seconds to
milliseconds and applies the UTC offset, exactly as `timestamp_millis` does.
(Leap seconds, which chrono maps into the previous second, are not
modelled; no property here involves them.) -/

/-- Days from the civil epoch 1970-01-01 (Howard Hinnant's `days_from_civil`
algorithm, as used by every proleptic-Gregorian calendar implementation). -/
def days_from_civil (y m d : ℤ) : ℤ :=
  let y' := if m ≤ 2 then y - 1 else y
  let era := Int.fdiv y' 400
  let yoe := y' - era * 400
  let mp := Int.emod (m + 9) 12
  let doy := Int.fdiv (153 * mp + 2) 5 + d - 1
  let doe := yoe * 365 + Int.fdiv yoe 4 - Int.fdiv yoe 100 + doy
  era * 146097 + doe - 719468

/-- Whether `y` is a Gregorian leap year. -/
def is_leap_year (y : ℤ) : Bool :=
  (Int.emod y 4 = 0 ∧ Int.emod y 100 ≠ 0) ∨ Int.emod y 400 = 0

/-- Number of days in month `m` of year `y` (`m` is 1-based). -/
def days_in_month (y m : ℤ) : ℤ :=
  if m = 2 then (if is_leap_year y then 29 else 28)
  else if m = 4 ∨ m = 6 ∨ m = 9 ∨ m = 11 then 30
  else 31

/-- Read exactly `n` ASCII digits, returning their value and the rest. -/
def read_digits : ℕ → List Char → Option (ℕ × List Char)
  | 0, cs => some (0, cs)
  | n + 1, c :: cs =>
    if c.isDigit then
      match read_digits n cs with
      | some (v, rest) => some ((c.toNat - 48) * 10 ^ n + v, rest)
      | none => none
    else none
  | _ + 1, [] => none

/-- Parse the trailing UTC-offset part (`Z`/`z` or `±hh:mm`), which must
consume the remainder; the result is the offset in minutes. -/
def parse_utc_offset (cs : List Char) : Option ℤ :=
  match cs with
  | ['Z'] => some 0
  | ['z'] => some 0
  | c :: rest =>
    if c = '+' ∨ c = '-' then
      match read_digits 2 rest with
      | some (h, ':' :: rest2) =>
        match read_digits 2 rest2 with
        | some (mi, []) =>
          if h ≤ 23 ∧ mi ≤ 59 then
            some (if c = '-' then -((h : ℤ) * 60 + mi) else (h : ℤ) * 60 + mi)
          else none
        | _ => none
      | _ => none
    else none
  | [] => none

/-- Parse an optional fractional-seconds part, truncated to milliseconds
(as `timestamp_millis()` does), returning `(millis, rest)`. -/
def parse_frac_millis (cs : List Char) : Option (ℕ × List Char) :=
  match cs with
  | '.' :: rest =>
    let (ds, r) := rest.span Char.isDigit
    if ds.isEmpty then none
    else some (digits_to_nat ((ds ++ ['0', '0', '0']).take 3), r)
  | rest => some (0, rest)

/-- RFC 3339 date-time to milliseconds since the Unix epoch; `none` when the
string is not a valid RFC 3339 date-time. -/
def parse_rfc3339_millis (s : String) : Option ℤ :=
  match read_digits 4 s.data with
  | some (y, '-' :: r1) =>
    match read_digits 2 r1 with
    | some (mo, '-' :: r2) =>
      match read_digits 2 r2 with
      | some (d, t :: r3) =>
        if t = 'T' ∨ t = 't' then
          match read_digits 2 r3 with
          | some (h, ':' :: r4) =>
            match read_digits 2 r4 with
            | some (mi, ':' :: r5) =>
              match read_digits 2 r5 with
              | some (sec, r6) =>
                match parse_frac_millis r6 with
                | some (ms, r7) =>
                  match parse_utc_offset r7 with
                  | some off =>
                    if 1 ≤ mo ∧ mo ≤ 12 ∧ 1 ≤ (d : ℤ) ∧ (d : ℤ) ≤ days_in_month y mo ∧
                        h ≤ 23 ∧ mi ≤ 59 ∧ sec ≤ 59 then
                      some ((days_from_civil y mo d * 86400 +
                             (h : ℤ) * 3600 + (mi : ℤ) * 60 + (sec : ℤ) - off * 60) * 1000 + ms)
                    else none
                  | none => none
                | none => none
              | _ => none
            | _ => none
          | _ => none
        else none
      | _ => none
    | _ => none
  | _ => none

/-- `parse_timestamp` (`sensor_analysis.rs` line 278 and `timeline.rs` line 278):
parse as RFC 3339, defaulting to epoch 0 on failure (`unwrap_or(0)`). -/
def parse_timestamp (iso_string : String) : ℤ :=
  (parse_rfc3339_millis iso_string).getD 0

/-! ### `threshold.rs` -/

/-- `value_matches_thresholds` (`threshold.rs` lines 9-16). -/
def value_matches_thresholds (value : ℚ) (thresholds : OptimalThresholds) : Bool :=
  match thresholds.above, thresholds.below with
  | some above, some below => value > above ∧ value ≤ below
  | some above, none => value > above
  | none, some below => value ≤ below
  | none, none => false

/-- Fixed-two-decimal formatting of a rational, modelling Rust's `{:.2}`
float formatting (round half to even at the second decimal).  Only the
determinism and injectivity-on-distinct-rounded-values of this function
matter to any property below. -/
def format_fixed2 (q : ℚ) : String :=
  let neg : Bool := q < 0
  let scaled := |q| * 100
  let fl : ℤ := ⌊scaled⌋
  let frac := scaled - (fl : ℚ)
  let r : ℤ :=
    if frac > 1 / 2 then fl + 1
    else if frac < 1 / 2 then fl
    else if Int.emod fl 2 = 0 then fl else fl + 1
  let n := r.toNat
  (if neg then "-" else "") ++ toString (n / 100) ++ "." ++
    (if n % 100 < 10 then "0" ++ toString (n % 100) else toString (n % 100))

/-- `format_threshold_description` (`threshold.rs` lines 19-26). -/
def format_threshold_description (thresholds : OptimalThresholds) : String :=
  match thresholds.above, thresholds.below with
  | some above, some below => format_fixed2 above ++ " < value <= " ++ format_fixed2 below
  | some above, none => "> " ++ format_fixed2 above
  | none, some below => "<= " ++ format_fixed2 below
  | none, none => "numeric"

/-- The loop of `binary_search_first_above` / `binary_search_last_below`
(`threshold.rs` lines 224-254; the two Rust functions have byte-identical
bodies): find the first index whose value exceeds `threshold` by bisection.
`fuel` only bounds the recursion; the interval `right - left` shrinks every
step, so `chunks.length + 1` fuel never runs out. -/
def binary_search_go (chunks : List ValueDuration) (threshold : ℚ) :
    ℕ → ℕ → ℕ → ℕ
  | 0, left, _ => left
  | fuel + 1, left, right =>
    if left < right then
      let mid := (left + right) / 2
      if (chunks.getD mid default).value ≤ threshold then
        binary_search_go chunks threshold fuel (mid + 1) right
      else
        binary_search_go chunks threshold fuel left mid
    else left

/-- `binary_search_first_above` (`threshold.rs` lines 224-238). -/
def binary_search_first_above (chunks : List ValueDuration) (threshold : ℚ) : ℕ :=
  binary_search_go chunks threshold (chunks.length + 1) 0 chunks.length

/-- `binary_search_last_below` (`threshold.rs` lines 240-254); its body is
identical to `binary_search_first_above` in the source. -/
def binary_search_last_below (chunks : List ValueDuration) (threshold : ℚ) : ℕ :=
  binary_search_go chunks threshold (chunks.length + 1) 0 chunks.length

/-- `ChunkStats` (`threshold.rs` lines 184-187). -/
structure ChunkStats where
  matching_duration : ℤ
  total_duration : ℤ
deriving DecidableEq, Repr

/-- `calculate_chunks_in_range` (`threshold.rs` lines 189-222): locate the
boundary indices by binary search, then sum every duration into
`total_duration` and the durations at indices in `[start_idx, end_idx)` into
`matching_duration`. -/
def calculate_chunks_in_range (sorted_chunks : List ValueDuration)
    (above below : Option ℚ) : ChunkStats :=
  let start_idx :=
    match above with
    | some threshold => binary_search_first_above sorted_chunks threshold
    | none => 0
  let end_idx :=
    match below with
    | some threshold => binary_search_last_below sorted_chunks threshold
    | none => sorted_chunks.length
  let total_duration := (sorted_chunks.map (fun c => c.duration)).sum
  let matching_duration :=
    ((sorted_chunks.enum.filter
        (fun p => decide (start_idx ≤ p.1) && decide (p.1 < end_idx))).map
      (fun p => p.2.duration)).sum
  ⟨matching_duration, total_duration⟩

/-- `calculate_threshold_score` (`threshold.rs` lines 160-182): absolute
difference of the duration-weighted matching fractions of the two polarities
(a zero total duration contributes fraction `0.0`). -/
def calculate_threshold_score (sorted_true_chunks sorted_false_chunks : List ValueDuration)
    (above below : Option ℚ) : ℚ :=
  let true_stats := calculate_chunks_in_range sorted_true_chunks above below
  let false_stats := calculate_chunks_in_range sorted_false_chunks above below
  let true_pct : ℚ :=
    if 0 < true_stats.total_duration then
      (true_stats.matching_duration : ℚ) / (true_stats.total_duration : ℚ)
    else 0
  let false_pct : ℚ :=
    if 0 < false_stats.total_duration then
      (false_stats.matching_duration : ℚ) / (false_stats.total_duration : ℚ)
    else 0
  |true_pct - false_pct|

/-- Remove consecutive duplicates, modelling `Vec::dedup`. -/
def dedup_consecutive : List ℚ → List ℚ
  | [] => []
  | [a] => [a]
  | a :: b :: rest =>
    if a = b then dedup_consecutive (b :: rest)
    else a :: dedup_consecutive (b :: rest)

/-- The chunk lists pre-sorted by value (`threshold.rs` lines 48-51;
`sort_by` with `partial_cmp` is Rust's stable ascending sort, modelled by the
stable `insertionSort` with `≤` on values). -/
def sorted_true_of (stats : NumericStateStats) : List ValueDuration :=
  List.insertionSort (fun a b => a.value ≤ b.value) stats.true_chunks

/-- See `sorted_true_of`. -/
def sorted_false_of (stats : NumericStateStats) : List ValueDuration :=
  List.insertionSort (fun a b => a.value ≤ b.value) stats.false_chunks

/-- Candidate generation of `find_optimal_numeric_thresholds`
(`threshold.rs` lines 44-82): all observed values of both polarities, the
midpoints of adjacent distinct observed values, and 21 evenly spaced points
across `[min, max]` (with `unwrap_or` defaults 0 and 100), sorted ascending
and deduplicated. -/
def candidate_thresholds (stats : NumericStateStats) : List ℚ :=
  let base := stats.true_chunks.map (fun c => c.value) ++
    stats.false_chunks.map (fun c => c.value)
  let all_values := dedup_consecutive (List.insertionSort (fun a b => a ≤ b) base)
  let midpoints := (all_values.zip all_values.tail).map (fun p => (p.1 + p.2) / 2)
  let mn := stats.min.getD 0
  let mx := stats.max.getD 100
  let step := (mx - mn) / 20
  let spaced := (List.range 21).map (fun i => mn + step * (i : ℚ))
  dedup_consecutive (List.insertionSort (fun a b => a ≤ b) (base ++ midpoints ++ spaced))

/-- The arithmetic progression `a, a + s, a + 2s, …` of indices below `b`,
modelling `(a..b).step_by(s)` (`s ≥ 1`). -/
def stride_indices (a b s : ℕ) : List ℕ :=
  (List.range ((b - a + s - 1) / s)).map (fun k => a + k * s)

/-- The `(i, j)` index pairs of the range-threshold loop of
`find_optimal_numeric_thresholds` (`threshold.rs` lines 124-155), in
evaluation order: `i` ascending, `j` striding through `i+1..n` with stride
`max (n*n/100) 1`, stopping after at most 100 evaluations (`test_count`
reaches `max_range_tests` exactly at the 100th scored pair, which is where
both loops break). -/
def range_pairs (n : ℕ) : List (ℕ × ℕ) :=
  let step := Nat.max (n * n / 100) 1
  (((List.range (n - 1)).map
      (fun i => (stride_indices (i + 1) n step).map (fun j => (i, j)))).flatten).take 100

/-- The full candidate-evaluation sequence of
`find_optimal_numeric_thresholds`, in source order: every candidate as
above-only, then every candidate as below-only, then the sampled
`(above, below)` range combinations. -/
def evaluation_order (stats : NumericStateStats) : List OptimalThresholds :=
  let cs := candidate_thresholds stats
  cs.map (fun c => OptimalThresholds.mk (some c) none) ++
    cs.map (fun c => OptimalThresholds.mk none (some c)) ++
    (range_pairs cs.length).map
      (fun p => OptimalThresholds.mk (some (cs.getD p.1 0)) (some (cs.getD p.2 0)))

/-- The score a candidate threshold combination receives inside
`find_optimal_numeric_thresholds`: `calculate_threshold_score` against the
pre-sorted chunk lists. -/
def threshold_eval_score (stats : NumericStateStats) (t : OptimalThresholds) : ℚ :=
  calculate_threshold_score (sorted_true_of stats) (sorted_false_of stats) t.above t.below

/-- One step of the best-so-far accumulation of
`find_optimal_numeric_thresholds`: a candidate replaces the best exactly
when its score is strictly greater (`if score > best_score`). -/
def best_fold_step {α : Type} (score : α → ℚ) (best : α × ℚ) (t : α) : α × ℚ :=
  let s := score t
  if s > best.2 then (t, s) else best

/-- The accumulation loop of `find_optimal_numeric_thresholds`
(`threshold.rs` lines 84-155): starting from `best_score = -1.0` and
`{above: None, below: None}`, each evaluated combination replaces the best
exactly when its score is strictly greater. -/
def best_threshold_fold (stats : NumericStateStats) : OptimalThresholds × ℚ :=
  (evaluation_order stats).foldl (best_fold_step (threshold_eval_score stats))
    (OptimalThresholds.mk none none, -1)

/-- `find_optimal_numeric_thresholds` (`threshold.rs` lines 36-158). -/
def find_optimal_numeric_thresholds (stats : NumericStateStats) : OptimalThresholds :=
  if !stats.is_numeric || stats.true_chunks.isEmpty || stats.false_chunks.isEmpty then
    ⟨none, none⟩
  else
    (best_threshold_fold stats).1

/-- `get_cache_key` (`threshold.rs` lines 256-275): fingerprint built from
the first 5 true and first 5 false `(value, duration)` pairs, each formatted
as `{:.2}-{}` and joined with `,`, the two halves joined with `|`. -/
def get_cache_key (stats : NumericStateStats) : String :=
  let true_key := String.intercalate ","
    ((stats.true_chunks.take 5).map
      (fun c => format_fixed2 c.value ++ "-" ++ toString c.duration))
  let false_key := String.intercalate ","
    ((stats.false_chunks.take 5).map
      (fun c => format_fixed2 c.value ++ "-" ++ toString c.duration))
  true_key ++ "|" ++ false_key

/-! ### `sensor_analysis.rs` -/

/-- The per-index body of the sampling loop of `is_numeric_entity`
(`sensor_analysis.rs` lines 33-40): count states that are neither sentinel
(`unavailable` / `unknown`) nor unparsable as f64. -/
def numeric_count_step (entity_history : List HAHistoryEntry) (acc : ℕ) (i : ℕ) : ℕ :=
  let state := (entity_history.getD i default).state
  if state ≠ "unavailable" ∧ state ≠ "unknown" then
    if is_f64_parseable state then acc + 1 else acc
  else acc

/-- `is_numeric_entity` (`sensor_analysis.rs` lines 25-43).  The Rust
threshold `(sample_size as f64 * 0.7) as usize` equals `7 * sample_size / 10`
(natural floor division) for every `sample_size ≤ 10`: checked value by
value, the f64 products round to 0.69…, 1.39…, 2.09…, 2.79…, 3.49…, 4.19…,
4.89…, 5.59…, 6.29… and exactly 7.0 (the `10 * 0.7` product ties and rounds
half-to-even up to 7.0), whose truncations are 0,1,2,2,3,4,4,5,6,7 —
precisely `⌊7n/10⌋`. -/
def is_numeric_entity (entity_history : List HAHistoryEntry) : Bool :=
  if entity_history.isEmpty then false
  else
    let sample_size := Nat.min entity_history.length 10
    let numeric_count :=
      (List.range sample_size).foldl (numeric_count_step entity_history) 0
    decide (7 * sample_size / 10 ≤ numeric_count)

/-- The per-period chunk loop of `create_sensor_period_chunks`
(`sensor_analysis.rs` lines 136-165) over consecutive time-point pairs.
Note the source `continue`s on a sub-second chunk *before* refreshing
`current_value`, so a value change at the start of a skipped chunk does not
update the running value; the model reproduces this.
`sensor_value_refresh` is the `i > 0` refresh step (`sensor_analysis.rs`
lines 146-156): scan `history_cache` for the first entry at exactly this
time point and adopt its value only when that entry parsed
(`if let Some(v)`). -/
def sensor_value_refresh (history_cache : List (ℤ × Option ℚ)) (chunk_start : ℤ)
    (i : ℕ) (current_value : Option ℚ) : Option ℚ :=
  if 0 < i then
    match history_cache.find? (fun p => p.1 == chunk_start) with
    | some (_, some v) => some v
    | _ => current_value
  else current_value

/-- The chunk-emitting loop over consecutive time-point pairs
(`sensor_analysis.rs` lines 136-165); see `sensor_value_refresh`. -/
def sensor_chunk_loop (history_cache : List (ℤ × Option ℚ)) (is_true : Bool) :
    List (ℤ × ℤ) → ℕ → Option ℚ → List SensorChunk
  | [], _, _ => []
  | (chunk_start, chunk_end) :: rest, i, current_value =>
    if chunk_end - chunk_start < 1000 then
      sensor_chunk_loop history_cache is_true rest (i + 1) current_value
    else
      match sensor_value_refresh history_cache chunk_start i current_value with
      | some v =>
        ⟨v, chunk_end - chunk_start, is_true⟩ ::
          sensor_chunk_loop history_cache is_true rest (i + 1)
            (sensor_value_refresh history_cache chunk_start i current_value)
      | none =>
        sensor_chunk_loop history_cache is_true rest (i + 1)
          (sensor_value_refresh history_cache chunk_start i current_value)

/-- One period's worth of `create_sensor_period_chunks`
(`sensor_analysis.rs` lines 108-166): collect the in-period change
timestamps, bracket them with the period bounds, seed the running value with
the last history value at or before the period start, and walk the
consecutive time-point pairs. -/
def sensor_chunks_for_period (history_cache : List (ℤ × Option ℚ))
    (period : TimePeriod) : List SensorChunk :=
  let period_start := parse_timestamp period.start
  let period_end := parse_timestamp period.stop
  let relevant_timestamps :=
    (history_cache.filter (fun p => period_start < p.1 ∧ p.1 < period_end)).map
      (fun p => p.1)
  let time_points := period_start :: relevant_timestamps ++ [period_end]
  let initial_value :=
    match history_cache.reverse.find? (fun p => p.1 ≤ period_start) with
    | some (_, v) => v
    | none => none
  sensor_chunk_loop history_cache period.is_true_period
    (time_points.zip time_points.tail) 0 initial_value

/-- `create_sensor_period_chunks` (`sensor_analysis.rs` lines 86-169). -/
def create_sensor_period_chunks (entity_history : List HAHistoryEntry)
    (periods : List TimePeriod) : List SensorChunk :=
  if entity_history.isEmpty || periods.isEmpty then []
  else
    let history_cache :=
      List.insertionSort (fun a b => a.1 ≤ b.1)
        (entity_history.map
          (fun e => (parse_timestamp e.last_changed, rust_parse_f64 e.state)))
    periods.flatMap (fun period => sensor_chunks_for_period history_cache period)

/-- `analyze_numeric_states` (`sensor_analysis.rs` lines 45-84): split the
chunks by polarity and record the global min and max of the observed values
(the source folds `f64::min`/`f64::max` from `±INFINITY`; since the chunk
list is non-empty at that point, this is the fold from the head). -/
def analyze_numeric_states (entity_history : List HAHistoryEntry)
    (periods : List TimePeriod) : Option NumericStateStats :=
  let all_chunks := create_sensor_period_chunks entity_history periods
  match all_chunks with
  | [] => none
  | c0 :: crest =>
    let true_chunks :=
      (all_chunks.filter (fun c => c.desired_output)).map
        (fun c => ValueDuration.mk c.sensor_value c.duration)
    let false_chunks :=
      (all_chunks.filter (fun c => !c.desired_output)).map
        (fun c => ValueDuration.mk c.sensor_value c.duration)
    let mn := (crest.map (fun c => c.sensor_value)).foldl Min.min c0.sensor_value
    let mx := (crest.map (fun c => c.sensor_value)).foldl Max.max c0.sensor_value
    some ⟨true, some mn, some mx, true_chunks, false_chunks⟩

/-! ### `timeline.rs` -/

/-- The sweep state of `create_unified_timeline`: current state string,
current numeric value, and the set of active period polarities
(`FxHashSet<bool>` holds at most the two booleans, modelled as two flags:
`has_true` / `has_false`). -/
structure SweepState where
  current_state : Option String
  current_value : Option ℚ
  has_true : Bool
  has_false : Bool
deriving DecidableEq, Repr

/-- Apply one timeline entry to the sweep state (`timeline.rs` lines 56-71).
Note `HashSet::remove` of a polarity clears that flag outright, so two
overlapping periods of one polarity collapse to a single flag — exactly the
source's behaviour. -/
def sweep_apply (st : SweepState) (e : TimelineEntry) : SweepState :=
  match e.entry_type with
  | TimelineEntryType.StateChange => { st with current_state := e.state, current_value := e.value }
  | TimelineEntryType.PeriodStart =>
    match e.is_true_period with
    | some true => { st with has_true := true }
    | some false => { st with has_false := true }
    | none => st
  | TimelineEntryType.PeriodEnd =>
    match e.is_true_period with
    | some true => { st with has_true := false }
    | some false => { st with has_false := false }
    | none => st

/-- The segment-emitting sweep of `create_unified_timeline` (`timeline.rs`
lines 52-86): after applying each entry, if a current state exists, a next
timeline point exists and some polarity is active, emit the segment up to the
next point, tagged `is_true_period` iff the TRUE polarity is active. -/
def sweep_segments : List TimelineEntry → SweepState → List StateSegment
  | [], _ => []
  | e :: rest, st =>
    let st' := sweep_apply st e
    match rest.head? with
    | some next_entry =>
      match st'.current_state with
      | some state =>
        if st'.has_true || st'.has_false then
          ⟨e.time, next_entry.time, state, st'.current_value, st'.has_true⟩ ::
            sweep_segments rest st'
        else sweep_segments rest st'
      | none => sweep_segments rest st'
    | none => []

/-- `create_unified_timeline` (`timeline.rs` lines 6-89): merge state-change
events and period boundary markers into one stream, stable-sort by time, and
sweep.  The build order (all history entries, then per period a start marker
followed by an end marker) is the tie-break order of the stable sort. -/
def create_unified_timeline (entity_history : List HAHistoryEntry)
    (periods : List TimePeriod) : List StateSegment :=
  let history_entries := entity_history.map (fun entry =>
    TimelineEntry.mk (parse_timestamp entry.last_changed)
      TimelineEntryType.StateChange (some entry.state)
      (rust_parse_f64 entry.state) none)
  let period_entries := periods.flatMap (fun period =>
    [TimelineEntry.mk (parse_timestamp period.start) TimelineEntryType.PeriodStart
       none none (some period.is_true_period),
     TimelineEntry.mk (parse_timestamp period.stop) TimelineEntryType.PeriodEnd
       none none (some period.is_true_period)])
  let timeline := List.insertionSort (fun a b => a.time ≤ b.time)
    (history_entries ++ period_entries)
  sweep_segments timeline ⟨none, none, false, false⟩

/-- Insert a start time into a per-state set of period identifiers
(`FxHashSet<i64>` insert: a no-op when already present). -/
def set_insert (s : List ℤ) (x : ℤ) : List ℤ :=
  if s.contains x then s else s ++ [x]

/-- Insert into the per-state map of start-time sets
(`FxHashMap<String, FxHashSet<i64>>.entry(..).or_insert_with(..).insert(..)`). -/
def map_set_insert (m : List (String × List ℤ)) (k : String) (x : ℤ) :
    List (String × List ℤ) :=
  match m with
  | [] => [(k, set_insert [] x)]
  | (k', s) :: rest =>
    if k' == k then (k', set_insert s x) :: rest
    else (k', s) :: map_set_insert rest k x

/-- The segment fold of `analyze_state_segments` (`timeline.rs` lines
191-211): skip segments shorter than 1000 ms, then record the segment's own
start time as the "period" identifier under the segment's state, in the map
of the segment's polarity. -/
def collect_state_starts :
    List StateSegment → List (String × List ℤ) × List (String × List ℤ) →
    List (String × List ℤ) × List (String × List ℤ)
  | [], maps => maps
  | segment :: rest, (true_map, false_map) =>
    if segment.stop - segment.start < 1000 then
      collect_state_starts rest (true_map, false_map)
    else if segment.is_true_period then
      collect_state_starts rest (map_set_insert true_map segment.state segment.start, false_map)
    else
      collect_state_starts rest (true_map, map_set_insert false_map segment.state segment.start)

/-- Deterministic key union (first-occurrence order); the source iterates an
`FxHashSet` of the keys of both maps, whose order is arbitrary — every
per-key fact proved below is order-independent. -/
def distinct_keys (l : List String) : List String :=
  l.foldl (fun acc s => if acc.contains s then acc else acc ++ [s]) []

/-- `analyze_state_segments` (`timeline.rs` lines 182-236): count, per
state, how many distinct *segment start times* of each polarity the state was
seen at.  (The source comments that this function "should not be used"; it is
nevertheless the one `process_entities` calls.) -/
def analyze_state_segments (segments : List StateSegment) :
    List (String × StateAnalysis) :=
  let maps := collect_state_starts segments ([], [])
  let all_states := distinct_keys
    ((maps.1.map (fun p => p.1)) ++ (maps.2.map (fun p => p.1)))
  all_states.map (fun state =>
    (state,
      ⟨((maps.1.lookup state).getD []).length,
       ((maps.2.lookup state).getD []).length⟩))

/-! ### `lib.rs` -/

/-- `clamp_preserve_discrimination` (`lib.rs` lines 199-206) on finite
values: clamp each probability independently into `[0.01, 0.99]` via
`.max(0.01).min(0.99)`. -/
def clamp_preserve_discrimination (prob_true prob_false : ℚ) : ℚ × ℚ :=
  (Min.min (Max.max prob_true (1 / 100)) (99 / 100),
   Min.min (Max.max prob_false (1 / 100)) (99 / 100))

/-- Four-point model of the full `f64` domain, used where behaviour on
non-finite inputs is itself the property under study: `nanv` (any NaN),
`pinf` (+∞), `ninf` (−∞) and finite values.  Finite rounding is not
modelled; `clamp_preserve_discrimination` only compares and selects. -/
inductive F64 where
  | nanv
  | pinf
  | ninf
  | fin (q : ℚ)
deriving DecidableEq, Repr

/-- Rust `f64::max`: if either argument is NaN the other is returned,
otherwise the larger value. -/
def f64_max : F64 → F64 → F64
  | F64.nanv, b => b
  | a, F64.nanv => a
  | F64.ninf, b => b
  | a, F64.ninf => a
  | F64.pinf, _ => F64.pinf
  | _, F64.pinf => F64.pinf
  | F64.fin p, F64.fin q => if p ≤ q then F64.fin q else F64.fin p

/-- Rust `f64::min`: if either argument is NaN the other is returned,
otherwise the smaller value. -/
def f64_min : F64 → F64 → F64
  | F64.nanv, b => b
  | a, F64.nanv => a
  | F64.pinf, b => b
  | a, F64.pinf => a
  | F64.ninf, _ => F64.ninf
  | _, F64.ninf => F64.ninf
  | F64.fin p, F64.fin q => if p ≤ q then F64.fin p else F64.fin q

/-- Rust `f64::partial_cmp`: `None` exactly when either side is NaN. -/
def f64_partial_cmp : F64 → F64 → Option Ordering
  | F64.nanv, _ => none
  | _, F64.nanv => none
  | F64.ninf, F64.ninf => some Ordering.eq
  | F64.ninf, _ => some Ordering.lt
  | _, F64.ninf => some Ordering.gt
  | F64.pinf, F64.pinf => some Ordering.eq
  | F64.pinf, _ => some Ordering.gt
  | _, F64.pinf => some Ordering.lt
  | F64.fin p, F64.fin q =>
    if p < q then some Ordering.lt
    else if q < p then some Ordering.gt
    else some Ordering.eq

/-- `clamp_preserve_discrimination` (`lib.rs` lines 199-206) over the full
`f64` domain: `prob.max(0.01).min(0.99)` applied to each argument. -/
def clamp_preserve_discrimination_f64 (prob_true prob_false : F64) : F64 × F64 :=
  (f64_min (f64_max prob_true (F64.fin (1 / 100))) (F64.fin (99 / 100)),
   f64_min (f64_max prob_false (F64.fin (1 / 100))) (F64.fin (99 / 100)))

/-- The `BayesianCalculator` instance state (`lib.rs` lines 17-20): the
per-entity threshold cache, a `HashMap<String, HashMap<String,
OptimalThresholds>>` modelled as nested association lists with
insert-or-replace semantics. -/
structure Calculator where
  threshold_cache : List (String × List (String × OptimalThresholds))
deriving DecidableEq, Repr

/-- `HashMap::insert` on the inner cache: replace the value at the key, or
append the binding when absent. -/
def cache_insert (m : List (String × OptimalThresholds)) (k : String)
    (v : OptimalThresholds) : List (String × OptimalThresholds) :=
  match m with
  | [] => [(k, v)]
  | (k', v') :: rest =>
    if k' == k then (k, v) :: rest else (k', v') :: cache_insert rest k v

/-- `self.threshold_cache.entry(id).or_insert_with(new).insert(key, v)`:
update the entity's inner cache in place, creating it when absent. -/
def outer_cache_insert (m : List (String × List (String × OptimalThresholds)))
    (id key : String) (v : OptimalThresholds) :
    List (String × List (String × OptimalThresholds)) :=
  match m with
  | [] => [(id, cache_insert [] key v)]
  | (id', c) :: rest =>
    if id' == id then (id', cache_insert c key v) :: rest
    else (id', c) :: outer_cache_insert rest id key v

/-- `get_or_calculate_thresholds` (`lib.rs` lines 171-192): fingerprint the
stats, return the cached threshold on a `(entity_id, fingerprint)` hit,
otherwise run `find_optimal_numeric_thresholds`, store and return. -/
def get_or_calculate_thresholds (calculator : Calculator) (entity_id : String)
    (stats : NumericStateStats) : Option OptimalThresholds × Calculator :=
  let cache_key := get_cache_key stats
  match calculator.threshold_cache.lookup entity_id with
  | some cache =>
    match cache.lookup cache_key with
    | some cached => (some cached, calculator)
    | none =>
      let thresholds := find_optimal_numeric_thresholds stats
      (some thresholds, ⟨outer_cache_insert calculator.threshold_cache entity_id cache_key thresholds⟩)
  | none =>
    let thresholds := find_optimal_numeric_thresholds stats
    (some thresholds, ⟨outer_cache_insert calculator.threshold_cache entity_id cache_key thresholds⟩)

/-- The numeric-path result row of `process_entities` (`lib.rs` lines
84-137): duration-weighted matching fractions over the true and false
chunks, independently clamped, with the period counts reported as
occurrence counts. -/
def numeric_row (entity_id : String) (stats : NumericStateStats)
    (thresholds : OptimalThresholds) (n_true n_false : ℕ) : EntityProbability :=
  let true_total : ℚ := ((stats.true_chunks.map (fun c => c.duration)).sum : ℤ)
  let true_matching : ℚ :=
    (((stats.true_chunks.filter
        (fun c => value_matches_thresholds c.value thresholds)).map
      (fun c => c.duration)).sum : ℤ)
  let false_total : ℚ := ((stats.false_chunks.map (fun c => c.duration)).sum : ℤ)
  let false_matching : ℚ :=
    (((stats.false_chunks.filter
        (fun c => value_matches_thresholds c.value thresholds)).map
      (fun c => c.duration)).sum : ℤ)
  let prob_given_true := if 0 < true_total then true_matching / true_total else 0
  let prob_given_false := if 0 < false_total then false_matching / false_total else 0
  let clamped := clamp_preserve_discrimination prob_given_true prob_given_false
  { entity_id := entity_id
    state := format_threshold_description thresholds
    prob_given_true := clamped.1
    prob_given_false := clamped.2
    discrimination_power := |clamped.1 - clamped.2|
    true_occurrences := n_true
    false_occurrences := n_false
    total_true_periods := n_true
    total_false_periods := n_false
    numeric_stats := some stats
    optimal_thresholds := some thresholds }

/-- One categorical result row of `process_entities` (`lib.rs` lines
142-163): occurrence counts over period counts, independently clamped. -/
def categorical_row (entity_id state : String) (analysis : StateAnalysis)
    (n_true n_false : ℕ) : EntityProbability :=
  let prob_given_true : ℚ := (analysis.true_occurrences : ℚ) / (n_true : ℚ)
  let prob_given_false : ℚ := (analysis.false_occurrences : ℚ) / (n_false : ℚ)
  let clamped := clamp_preserve_discrimination prob_given_true prob_given_false
  { entity_id := entity_id
    state := state
    prob_given_true := clamped.1
    prob_given_false := clamped.2
    discrimination_power := |clamped.1 - clamped.2|
    true_occurrences := analysis.true_occurrences
    false_occurrences := analysis.false_occurrences
    total_true_periods := n_true
    total_false_periods := n_false
    numeric_stats := none
    optimal_thresholds := none }

/-- The per-entity body of the `process_entities` loop (`lib.rs` lines
73-164), for an entity with non-empty history: the numeric path produces at
most one row (none when `analyze_numeric_states` finds no chunks), the
categorical path one row per state found by `analyze_state_segments`. -/
def entity_rows (calculator : Calculator) (entity_id : String)
    (entity_history : List HAHistoryEntry) (periods : List TimePeriod)
    (n_true n_false : ℕ) : List EntityProbability × Calculator :=
  if is_numeric_entity entity_history then
    match analyze_numeric_states entity_history periods with
    | none => ([], calculator)
    | some stats =>
      match get_or_calculate_thresholds calculator entity_id stats with
      | (some thresholds, calculator') =>
        ([numeric_row entity_id stats thresholds n_true n_false], calculator')
      | (none, calculator') => ([], calculator')
  else
    ((analyze_state_segments (create_unified_timeline entity_history periods)).map
      (fun p => categorical_row entity_id p.1 p.2 n_true n_false), calculator)

/-- The entity loop of `process_entities` (`lib.rs` lines 68-165): entities
with empty history are skipped outright; the calculator cache threads
through the loop.  The source iterates a `HashMap` in arbitrary order; the
model takes the entity map as an association list and iterates it in list
order. -/
def process_loop (periods : List TimePeriod) (n_true n_false : ℕ) :
    Calculator → List (String × List HAHistoryEntry) →
    List EntityProbability × Calculator
  | calculator, [] => ([], calculator)
  | calculator, (entity_id, entity_history) :: rest =>
    if entity_history.isEmpty then process_loop periods n_true n_false calculator rest
    else
      match entity_rows calculator entity_id entity_history periods n_true n_false with
      | (rows, calculator') =>
        match process_loop periods n_true n_false calculator' rest with
        | (rows', calculator'') => (rows ++ rows', calculator'')

/-- `process_entities` (`lib.rs` lines 54-169): fail when the period set
lacks a TRUE or a FALSE member, otherwise build all rows and stable-sort
them descending by discrimination power (`sort_by` with the reversed
`partial_cmp`). -/
def process_entities (calculator : Calculator)
    (history : List (String × List HAHistoryEntry)) (periods : List TimePeriod) :
    Except String (List EntityProbability × Calculator) :=
  let true_periods := periods.filter (fun p => p.is_true_period)
  let false_periods := periods.filter (fun p => !p.is_true_period)
  if true_periods.isEmpty || false_periods.isEmpty then
    Except.error "Need at least one TRUE and one FALSE period"
  else
    match process_loop periods true_periods.length false_periods.length calculator history with
    | (rows, calculator') =>
      Except.ok
        (List.insertionSort
          (fun a b => b.discrimination_power ≤ a.discrimination_power) rows, calculator')

/-! ## Claim C6: half-open interval semantics of `value_matches_thresholds` -/

/-- C6. For every value `v` and threshold record: with both bounds
present, `value_matches_thresholds v {above := a, below := b}` holds iff
`a < v ≤ b`; with only `above` present iff `v > a`; with only `below`
present iff `v ≤ b`; and with both bounds absent it holds for no value. -/
theorem C6_value_matches_thresholds_semantics (v a b : ℚ) :
    (value_matches_thresholds v ⟨some a, some b⟩ = true ↔ a < v ∧ v ≤ b) ∧
    (value_matches_thresholds v ⟨some a, none⟩ = true ↔ a < v) ∧
    (value_matches_thresholds v ⟨none, some b⟩ = true ↔ v ≤ b) ∧
    value_matches_thresholds v ⟨none, none⟩ = false := by
  refine ⟨?_, ?_, ?_, rfl⟩ <;> simp [value_matches_thresholds]

/-! ## Claim C7: degenerate stats return the empty threshold -/

/-- C7. Whenever the true-chunk list or the false-chunk list of a
`NumericStats` is empty, `find_optimal_numeric_thresholds` returns
`{above := none, below := none}`: the definition takes the early-return
branch at `threshold.rs` lines 37-42, before any candidate is generated or
scored. -/
theorem C7_empty_chunks_no_search (stats : NumericStateStats)
    (h : stats.true_chunks = [] ∨ stats.false_chunks = []) :
    find_optimal_numeric_thresholds stats = ⟨none, none⟩ := by
  unfold find_optimal_numeric_thresholds
  rcases h with h | h <;> simp [h]

/-- Witness for C7 at a concrete input with an empty true-chunk list. -/
theorem C7_empty_chunks_no_search_witness :
    find_optimal_numeric_thresholds ⟨true, none, none, [], [⟨1, 1⟩]⟩ = ⟨none, none⟩ :=
  C7_empty_chunks_no_search ⟨true, none, none, [], [⟨1, 1⟩]⟩ (Or.inl rfl)

/-! ## Claim C1: the returned threshold maximises the score, earliest wins ties -/

/-- Folding `best_fold_step` either never improves on the seed (and then
every scanned score is at most the seed score), or it returns the *first*
element of the list attaining the running maximum: everything evaluated
before it scores strictly less, everything after it at most as much. -/
theorem best_fold_step_spec {α : Type} (score : α → ℚ) :
    ∀ (l : List α) (b : α × ℚ),
      (l.foldl (best_fold_step score) b = b ∧ ∀ t ∈ l, score t ≤ b.2) ∨
      (∃ l1 l2,
        l = l1 ++ (l.foldl (best_fold_step score) b).1 :: l2 ∧
        (l.foldl (best_fold_step score) b).2 =
          score (l.foldl (best_fold_step score) b).1 ∧
        b.2 < (l.foldl (best_fold_step score) b).2 ∧
        (∀ u ∈ l1, score u < (l.foldl (best_fold_step score) b).2) ∧
        (∀ u ∈ l2, score u ≤ (l.foldl (best_fold_step score) b).2)) := by
  intro l
  induction l with
  | nil => intro b; exact Or.inl ⟨rfl, by simp⟩
  | cons t l ih =>
    intro b
    by_cases h : score t > b.2
    · have hstep : best_fold_step score b t = (t, score t) := by
        simp [best_fold_step, h]
      rcases ih (t, score t) with ⟨heq, hall⟩ | ⟨l1, l2, hdec, hsc, hlt, h1, h2⟩
      · refine Or.inr ⟨[], l, ?_, ?_, ?_, ?_, ?_⟩
        · simp [List.foldl_cons, hstep, heq]
        · simp [List.foldl_cons, hstep, heq]
        · simp only [List.foldl_cons, hstep, heq]; exact h
        · simp
        · intro u hu
          simpa [List.foldl_cons, hstep, heq] using hall u hu
      · refine Or.inr ⟨t :: l1, l2, ?_, ?_, ?_, ?_, ?_⟩
        · simp [List.foldl_cons, hstep]; exact hdec
        · simp only [List.foldl_cons, hstep]; exact hsc
        · simp only [List.foldl_cons, hstep]
          exact lt_trans h hlt
        · intro u hu
          simp only [List.foldl_cons, hstep]
          rcases List.mem_cons.mp hu with rfl | hu
          · exact hlt
          · exact h1 u hu
        · intro u hu
          simp only [List.foldl_cons, hstep]
          exact h2 u hu
    · push_neg at h
      have hstep : best_fold_step score b t = b := by
        simp [best_fold_step, not_lt.mpr h]
      rcases ih b with ⟨heq, hall⟩ | ⟨l1, l2, hdec, hsc, hlt, h1, h2⟩
      · refine Or.inl ⟨by simp [List.foldl_cons, hstep, heq], ?_⟩
        intro u hu
        rcases List.mem_cons.mp hu with rfl | hu
        · exact h
        · exact hall u hu
      · refine Or.inr ⟨t :: l1, l2, ?_, ?_, ?_, ?_, ?_⟩
        · simp [List.foldl_cons, hstep]; exact hdec
        · simp only [List.foldl_cons, hstep]; exact hsc
        · simp only [List.foldl_cons, hstep]; exact hlt
        · intro u hu
          simp only [List.foldl_cons, hstep]
          rcases List.mem_cons.mp hu with rfl | hu
          · exact lt_of_le_of_lt h hlt
          · exact h1 u hu
        · intro u hu
          simp only [List.foldl_cons, hstep]
          exact h2 u hu

/-- `dedup_consecutive` of a non-empty list is non-empty. -/
theorem dedup_consecutive_ne_nil : ∀ l : List ℚ, l ≠ [] → dedup_consecutive l ≠ [] := by
  intro l
  induction l with
  | nil => intro h; exact absurd rfl h
  | cons a l ih =>
    intro _
    cases l with
    | nil => simp [dedup_consecutive]
    | cons b r =>
      by_cases hab : a = b
      · simpa [dedup_consecutive, hab] using ih (by simp)
      · simp [dedup_consecutive, hab]

/-- A `NumericStats` with chunks on the true side generates at least one
candidate threshold. -/
theorem candidate_thresholds_ne_nil (stats : NumericStateStats)
    (h : stats.true_chunks ≠ []) : candidate_thresholds stats ≠ [] := by
  unfold candidate_thresholds
  apply dedup_consecutive_ne_nil
  intro hsort
  have hlen := congrArg List.length hsort
  rw [List.length_insertionSort] at hlen
  simp at hlen
  exact h hlen.1

/-- Every evaluated score is non-negative (it is an absolute value). -/
theorem threshold_eval_score_nonneg (stats : NumericStateStats)
    (t : OptimalThresholds) : 0 ≤ threshold_eval_score stats t := by
  unfold threshold_eval_score calculate_threshold_score
  exact abs_nonneg _

/-- C1 (amended). For every `NumericStats` with `is_numeric` set and
non-empty true- and false-chunk lists, `find_optimal_numeric_thresholds`
returns a combination whose score (absolute difference of the
duration-weighted matching fractions over the pre-sorted true and false
chunks) is at least the score of every individual candidate evaluated in
isolation as above-only and as below-only; moreover the returned combination
is the *earliest* entry of the fixed evaluation order (all candidates
above-only, then all below-only, then the sampled ranges) attaining the
maximal score: everything evaluated before it scores strictly less,
everything after it no more. -/
theorem C1_optimal_threshold_argmax (stats : NumericStateStats)
    (h1 : stats.is_numeric = true) (h2 : stats.true_chunks ≠ [])
    (h3 : stats.false_chunks ≠ []) :
    (∀ c ∈ candidate_thresholds stats,
        threshold_eval_score stats ⟨some c, none⟩ ≤
          threshold_eval_score stats (find_optimal_numeric_thresholds stats) ∧
        threshold_eval_score stats ⟨none, some c⟩ ≤
          threshold_eval_score stats (find_optimal_numeric_thresholds stats)) ∧
    (∃ l1 l2,
      evaluation_order stats = l1 ++ find_optimal_numeric_thresholds stats :: l2 ∧
      (∀ u ∈ l1, threshold_eval_score stats u <
          threshold_eval_score stats (find_optimal_numeric_thresholds stats)) ∧
      (∀ u ∈ l2, threshold_eval_score stats u ≤
          threshold_eval_score stats (find_optimal_numeric_thresholds stats))) := by
  have hguard : find_optimal_numeric_thresholds stats = (best_threshold_fold stats).1 := by
    unfold find_optimal_numeric_thresholds
    simp [h1, List.isEmpty_iff, h2, h3]
  have hne : evaluation_order stats ≠ [] := by
    unfold evaluation_order
    simp only [ne_eq, List.append_eq_nil, List.map_eq_nil_iff]
    intro hx
    exact candidate_thresholds_ne_nil stats h2 hx.1.1
  rcases best_fold_step_spec (threshold_eval_score stats) (evaluation_order stats)
      (OptimalThresholds.mk none none, -1) with ⟨_, hall⟩ | ⟨l1, l2, hdec, hsc, _, hl1, hl2⟩
  · exfalso
    rcases List.exists_mem_of_ne_nil _ hne with ⟨e, he⟩
    have := hall e he
    have h0 := threshold_eval_score_nonneg stats e
    simp only at this
    linarith
  · have hbest : find_optimal_numeric_thresholds stats =
        ((evaluation_order stats).foldl
          (best_fold_step (threshold_eval_score stats))
          (OptimalThresholds.mk none none, -1)).1 := by
      rw [hguard]; rfl
    have hmax : ∀ u ∈ evaluation_order stats,
        threshold_eval_score stats u ≤
          threshold_eval_score stats (find_optimal_numeric_thresholds stats) := by
      intro u hu
      rw [hbest, ← hsc]
      rw [hdec] at hu
      rcases List.mem_append.mp hu with hu | hu
      · exact le_of_lt (hl1 u hu)
      · rcases List.mem_cons.mp hu with rfl | hu
        · exact le_of_eq hsc.symm
        · exact hl2 u hu
    refine ⟨?_, l1, l2, ?_, ?_, ?_⟩
    · intro c hc
      constructor
      · apply hmax
        unfold evaluation_order
        exact List.mem_append_left _ (List.mem_append_left _
          (List.mem_map.mpr ⟨c, hc, rfl⟩))
      · apply hmax
        unfold evaluation_order
        exact List.mem_append_left _ (List.mem_append_right _
          (List.mem_map.mpr ⟨c, hc, rfl⟩))
    · rw [hbest]; exact hdec
    · intro u hu; rw [hbest, ← hsc]; exact hl1 u hu
    · intro u hu; rw [hbest, ← hsc]; exact hl2 u hu

/-! ## Claim C2: numeric-entity classification -/

/-- The Boolean form of the per-entry test of `is_numeric_entity`: not a
sentinel state, and parseable as f64. -/
def counts_as_numeric (e : HAHistoryEntry) : Bool :=
  !(e.state == "unavailable" || e.state == "unknown") && is_f64_parseable e.state

/-- The index-driven sampling loop of `is_numeric_entity` counts exactly the
entries of the `k`-prefix passing `counts_as_numeric`. -/
theorem numeric_count_loop_eq (hist : List HAHistoryEntry) :
    ∀ k, k ≤ hist.length → ∀ acc,
      (List.range k).foldl (numeric_count_step hist) acc =
        acc + ((hist.take k).filter counts_as_numeric).length := by
  intro k
  induction k with
  | zero => intro _ acc; simp
  | succ k ih =>
    intro hk acc
    have hklt : k < hist.length := Nat.lt_of_succ_le hk
    rw [List.range_succ, List.foldl_append, ih (Nat.le_of_lt hklt) acc]
    have htake : hist.take (k + 1) = hist.take k ++ [hist[k]] := by
      rw [List.take_succ]
      simp [List.getElem?_eq_getElem hklt]
    rw [htake, List.filter_append, List.length_append]
    simp only [List.foldl_cons, List.foldl_nil]
    unfold numeric_count_step
    have hgetD : (hist.getD k default) = hist[k] := List.getD_eq_getElem hist default hklt
    rw [hgetD]
    by_cases h1 : hist[k].state ≠ "unavailable" ∧ hist[k].state ≠ "unknown"
    · by_cases h2 : is_f64_parseable hist[k].state
      · have : counts_as_numeric hist[k] = true := by
          unfold counts_as_numeric
          simp [h1.1, h1.2, h2]
        simp [h1, h2, this]
        omega
      · have : counts_as_numeric hist[k] = false := by
          unfold counts_as_numeric
          simp [h2]
        simp [h1, h2, this]
    · have : counts_as_numeric hist[k] = false := by
        unfold counts_as_numeric
        simp only [Bool.and_eq_false_imp, Bool.not_eq_true', Bool.or_eq_true, beq_iff_eq]
        intro hcon
        rcases not_and_or.mp h1 with hc | hc <;> simp_all
      simp [h1, this]

/-- C2 (amended). `is_numeric_entity` samples the first
`min (length) 10` observations and returns `true` exactly when the number of
sampled observations that are non-sentinel *and* parse as an f64 (Rust's
parser, which also accepts infinite/NaN spellings) reaches
`⌊0.7 · sample_size⌋`, where the sample size — including any sentinel
observations — is the denominator.  Consequently an all-sentinel history is
classified numeric when `⌊0.7 · sample_size⌋ = 0`, i.e. for a single-entry
history, and categorical otherwise. -/
theorem C2_is_numeric_entity_rule (hist : List HAHistoryEntry) :
    is_numeric_entity hist = true ↔
      hist ≠ [] ∧
      7 * Nat.min hist.length 10 ≤
        10 * ((hist.take 10).filter counts_as_numeric).length + 9 := by
  unfold is_numeric_entity
  by_cases h : hist.isEmpty
  · rw [List.isEmpty_iff] at h
    simp [h]
  · rw [List.isEmpty_iff] at h
    have hmin : Nat.min hist.length 10 ≤ hist.length := Nat.min_le_left _ _
    rw [if_neg (by simp [h])]
    simp only [decide_eq_true_eq]
    rw [numeric_count_loop_eq hist (Nat.min hist.length 10) hmin 0]
    have htake : hist.take (Nat.min hist.length 10) = hist.take 10 := by
      rcases le_total hist.length 10 with hle | hle
      · have hm : Nat.min hist.length 10 = hist.length := by
          unfold Nat.min; exact inf_eq_left.mpr hle
        rw [hm, List.take_length, List.take_of_length_le hle]
      · have hm : Nat.min hist.length 10 = 10 := by
          unfold Nat.min; exact inf_eq_right.mpr hle
        rw [hm]
    rw [htake]
    simp only [decide_eq_true_eq, Nat.zero_add, ne_eq, h, not_false_eq_true, true_and]
    omega

/-! ## Claim C9: threshold memoization -/

/-- Looking up the key just inserted by `cache_insert` returns the inserted
threshold. -/
theorem cache_insert_lookup (c : List (String × OptimalThresholds))
    (key : String) (v : OptimalThresholds) :
    (cache_insert c key v).lookup key = some v := by
  induction c with
  | nil => simp [cache_insert, List.lookup]
  | cons p rest ih =>
    obtain ⟨k', v'⟩ := p
    by_cases h : k' = key
    · subst h
      simp [cache_insert, List.lookup]
    · have hb : (k' == key) = false := beq_eq_false_iff_ne.mpr h
      have hb' : (key == k') = false := beq_eq_false_iff_ne.mpr (Ne.symm h)
      simp [cache_insert, hb, hb', List.lookup, ih]

/-- Looking up the entity just updated by `outer_cache_insert` returns its
inner cache with the new binding. -/
theorem outer_cache_insert_lookup
    (m : List (String × List (String × OptimalThresholds)))
    (id key : String) (v : OptimalThresholds) :
    (outer_cache_insert m id key v).lookup id =
      some (cache_insert ((m.lookup id).getD []) key v) := by
  induction m with
  | nil => simp [outer_cache_insert, List.lookup]
  | cons p rest ih =>
    obtain ⟨id', c⟩ := p
    by_cases h : id' = id
    · subst h
      simp [outer_cache_insert, List.lookup]
    · have hb : (id' == id) = false := beq_eq_false_iff_ne.mpr h
      have hb' : (id == id') = false := beq_eq_false_iff_ne.mpr (Ne.symm h)
      simp [outer_cache_insert, hb, hb', List.lookup, ih]

/-- C9. For every calculator state, entity id and `NumericStats`: after
one call of `get_or_calculate_thresholds` the cache holds a threshold `t`
under the (deterministically computed) fingerprint of the stats, the call
returned exactly `some t`, and a second call with the identical stats
returns the identical `t` with the cache state unchanged — that is, the
second call satisfies the cache-hit early return and never reaches
`find_optimal_numeric_thresholds`. -/
theorem C9_threshold_cache_hit (calculator : Calculator) (entity_id : String)
    (stats : NumericStateStats) :
    ∃ t : OptimalThresholds,
      ((get_or_calculate_thresholds calculator entity_id stats).2.threshold_cache.lookup
          entity_id).bind (fun c => c.lookup (get_cache_key stats)) = some t ∧
      (get_or_calculate_thresholds calculator entity_id stats).1 = some t ∧
      get_or_calculate_thresholds
          (get_or_calculate_thresholds calculator entity_id stats).2 entity_id stats =
        (some t, (get_or_calculate_thresholds calculator entity_id stats).2) := by
  cases h1 : calculator.threshold_cache.lookup entity_id with
  | none =>
    refine ⟨find_optimal_numeric_thresholds stats, ?_, ?_, ?_⟩
    · simp only [get_or_calculate_thresholds, h1]
      rw [outer_cache_insert_lookup]
      simp [cache_insert_lookup, h1]
    · simp [get_or_calculate_thresholds, h1]
    · simp only [get_or_calculate_thresholds, h1]
      rw [outer_cache_insert_lookup]
      simp [cache_insert_lookup, h1]
  | some cache =>
    cases h2 : cache.lookup (get_cache_key stats) with
    | none =>
      refine ⟨find_optimal_numeric_thresholds stats, ?_, ?_, ?_⟩
      · simp only [get_or_calculate_thresholds, h1, h2]
        rw [outer_cache_insert_lookup]
        simp [cache_insert_lookup, h1]
      · simp [get_or_calculate_thresholds, h1, h2]
      · simp only [get_or_calculate_thresholds, h1, h2]
        rw [outer_cache_insert_lookup]
        simp [cache_insert_lookup, h1]
    | some cached =>
      refine ⟨cached, ?_, ?_, ?_⟩
      · simp [get_or_calculate_thresholds, h1, h2]
      · simp [get_or_calculate_thresholds, h1, h2]
      · simp [get_or_calculate_thresholds, h1, h2]

/-! ## Claim C5: binary-search scoring agrees with the naive filter -/

/-- In a list sorted ascending by value, the `getD`-values are monotone in
the index. -/
theorem sorted_value_getD_mono (chunks : List ValueDuration)
    (hs : List.Sorted (fun a b : ValueDuration => a.value ≤ b.value) chunks)
    {i j : ℕ} (hij : i ≤ j) (hj : j < chunks.length) :
    (chunks.getD i default).value ≤ (chunks.getD j default).value := by
  rcases Nat.eq_or_lt_of_le hij with rfl | hlt
  · exact le_refl _
  · have hi : i < chunks.length := lt_trans hlt hj
    rw [List.getD_eq_getElem chunks default hi, List.getD_eq_getElem chunks default hj]
    exact List.pairwise_iff_getElem.mp hs i j hi hj hlt

/-- Invariant-based correctness of the bisection loop: started on a
bracket `[left, right)` whose outside is already classified, it returns the
first index whose value exceeds the threshold. -/
theorem binary_search_go_spec (chunks : List ValueDuration) (t : ℚ)
    (hs : List.Sorted (fun a b : ValueDuration => a.value ≤ b.value) chunks) :
    ∀ fuel left right, right ≤ chunks.length → left ≤ right → right - left < fuel →
      (∀ i, i < left → (chunks.getD i default).value ≤ t) →
      (∀ i, right ≤ i → i < chunks.length → t < (chunks.getD i default).value) →
      (binary_search_go chunks t fuel left right ≤ chunks.length ∧
       (∀ i, i < binary_search_go chunks t fuel left right →
          (chunks.getD i default).value ≤ t) ∧
       (∀ i, binary_search_go chunks t fuel left right ≤ i → i < chunks.length →
          t < (chunks.getD i default).value)) := by
  intro fuel
  induction fuel with
  | zero => intro left right _ _ hf _ _; exact absurd hf (Nat.not_lt_zero _)
  | succ fuel ih =>
    intro left right hr hlr hf hleft hright
    by_cases hcmp : left < right
    · have hmid_lb : left ≤ (left + right) / 2 := by omega
      have hmid_ub : (left + right) / 2 < right := by omega
      by_cases hv : (chunks.getD ((left + right) / 2) default).value ≤ t
      · have hstep : binary_search_go chunks t (fuel + 1) left right =
            binary_search_go chunks t fuel ((left + right) / 2 + 1) right := by
          simp only [binary_search_go]
          rw [if_pos hcmp, if_pos hv]
        rw [hstep]
        refine ih ((left + right) / 2 + 1) right hr (by omega) (by omega) ?_ hright
        intro i hi
        exact le_trans
          (sorted_value_getD_mono chunks hs (Nat.lt_succ_iff.mp hi) (by omega)) hv
      · have hstep : binary_search_go chunks t (fuel + 1) left right =
            binary_search_go chunks t fuel left ((left + right) / 2) := by
          simp only [binary_search_go]
          rw [if_pos hcmp, if_neg hv]
        rw [hstep]
        push_neg at hv
        refine ih left ((left + right) / 2) (by omega) (by omega) (by omega) hleft ?_
        intro i hmi hil
        exact lt_of_lt_of_le hv (sorted_value_getD_mono chunks hs hmi hil)
    · have hstep : binary_search_go chunks t (fuel + 1) left right = left := by
        simp only [binary_search_go]
        rw [if_neg hcmp]
      rw [hstep]
      exact ⟨by omega, hleft, fun i hi hil => hright i (by omega) hil⟩

/-- `binary_search_first_above` on a sorted chunk list returns the index of
the first chunk whose value strictly exceeds the threshold: everything
before it is `≤ t`, everything from it on is `> t`. -/
theorem binary_search_first_above_spec (chunks : List ValueDuration) (t : ℚ)
    (hs : List.Sorted (fun a b : ValueDuration => a.value ≤ b.value) chunks) :
    binary_search_first_above chunks t ≤ chunks.length ∧
    (∀ i, i < binary_search_first_above chunks t →
        (chunks.getD i default).value ≤ t) ∧
    (∀ i, binary_search_first_above chunks t ≤ i → i < chunks.length →
        t < (chunks.getD i default).value) := by
  unfold binary_search_first_above
  exact binary_search_go_spec chunks t hs (chunks.length + 1) 0 chunks.length
    (le_refl _) (Nat.zero_le _) (by omega)
    (fun i hi => absurd hi (Nat.not_lt_zero i))
    (fun i h1 h2 => absurd h1 (by omega))

/-- Summing durations of an indexed filter over `enumFrom` equals summing
over the value-level filter, whenever the index predicate agrees pointwise
with the value predicate. -/
theorem sum_filter_enumFrom (P : ℕ → Bool) (Q : ValueDuration → Bool) :
    ∀ (l : List ValueDuration) (n : ℕ),
      (∀ i, i < l.length → P (n + i) = Q (l.getD i default)) →
      (((l.enumFrom n).filter (fun p => P p.1)).map (fun p => p.2.duration)).sum =
        ((l.filter Q).map (fun c => c.duration)).sum := by
  intro l
  induction l with
  | nil => intro n _; simp
  | cons a l ih =>
    intro n h
    have h0 : P n = Q a := by simpa using h 0 (by simp)
    have hrec : ∀ i, i < l.length → P (n + 1 + i) = Q (l.getD i default) := by
      intro i hi
      have hh := h (i + 1) (by simp; omega)
      rw [List.getD_cons_succ] at hh
      rw [show n + 1 + i = n + (i + 1) by omega]
      exact hh
    rw [List.enumFrom_cons]
    cases hq : Q a <;> rw [hq] at h0 <;>
      simp [List.filter_cons, h0, hq, ih (n + 1) hrec]

/-- C5 (amended). For every chunk list sorted ascending by value and
every threshold pair with *at least one bound present*, the
binary-search-based `calculate_chunks_in_range` computes exactly the same
`matching_duration` as the naive sum of the durations of the chunks whose
value satisfies `value_matches_thresholds`.  (For the pair `(none, none)`
the two sides genuinely differ — see the counterexample.) -/
theorem C5_chunks_in_range_eq_naive (chunks : List ValueDuration)
    (above below : Option ℚ)
    (hs : List.Sorted (fun a b : ValueDuration => a.value ≤ b.value) chunks)
    (hb : above.isSome ∨ below.isSome) :
    (calculate_chunks_in_range chunks above below).matching_duration =
      ((chunks.filter
          (fun c => value_matches_thresholds c.value ⟨above, below⟩)).map
        (fun c => c.duration)).sum := by
  unfold calculate_chunks_in_range
  simp only []
  rw [show (List.enum chunks) = List.enumFrom 0 chunks from rfl]
  cases above with
  | some a =>
    cases below with
    | some b =>
      obtain ⟨hA1, hA2, hA3⟩ := binary_search_first_above_spec chunks a hs
      obtain ⟨hB1, hB2, hB3⟩ := binary_search_first_above_spec chunks b hs
      refine sum_filter_enumFrom
        (fun i => decide (binary_search_first_above chunks a ≤ i) &&
          decide (i < binary_search_last_below chunks b))
        (fun c => value_matches_thresholds c.value ⟨some a, some b⟩) chunks 0 ?_
      intro i hi
      beta_reduce
      have hsame : binary_search_last_below chunks b =
          binary_search_first_above chunks b := rfl
      rw [hsame]
      rw [Nat.zero_add]
      have : value_matches_thresholds (chunks.getD i default).value ⟨some a, some b⟩ =
          decide (a < (chunks.getD i default).value ∧ (chunks.getD i default).value ≤ b) := by
        simp [value_matches_thresholds]
      rw [this]
      rw [Bool.eq_iff_iff]
      simp only [Bool.and_eq_true, decide_eq_true_eq]
      constructor
      · rintro ⟨h1, h2⟩
        exact ⟨hA3 i h1 hi, hB2 i h2⟩
      · rintro ⟨h1, h2⟩
        constructor
        · by_contra hcon
          push_neg at hcon
          exact absurd (hA2 i hcon) (not_le.mpr h1)
        · by_contra hcon
          push_neg at hcon
          exact absurd (hB3 i hcon hi) (not_lt.mpr h2)
    | none =>
      obtain ⟨hA1, hA2, hA3⟩ := binary_search_first_above_spec chunks a hs
      refine sum_filter_enumFrom
        (fun i => decide (binary_search_first_above chunks a ≤ i) &&
          decide (i < chunks.length))
        (fun c => value_matches_thresholds c.value ⟨some a, none⟩) chunks 0 ?_
      intro i hi
      beta_reduce
      rw [Nat.zero_add]
      have : value_matches_thresholds (chunks.getD i default).value ⟨some a, none⟩ =
          decide (a < (chunks.getD i default).value) := by
        simp [value_matches_thresholds]
      rw [this]
      rw [Bool.eq_iff_iff]
      simp only [Bool.and_eq_true, decide_eq_true_eq]
      constructor
      · rintro ⟨h1, _⟩
        exact hA3 i h1 hi
      · intro h1
        refine ⟨?_, hi⟩
        by_contra hcon
        push_neg at hcon
        exact absurd (hA2 i hcon) (not_le.mpr h1)
  | none =>
    cases below with
    | some b =>
      obtain ⟨hB1, hB2, hB3⟩ := binary_search_first_above_spec chunks b hs
      refine sum_filter_enumFrom
        (fun i => decide ((0 : ℕ) ≤ i) &&
          decide (i < binary_search_last_below chunks b))
        (fun c => value_matches_thresholds c.value ⟨none, some b⟩) chunks 0 ?_
      intro i hi
      beta_reduce
      have hsame : binary_search_last_below chunks b =
          binary_search_first_above chunks b := rfl
      rw [hsame]
      rw [Nat.zero_add]
      have : value_matches_thresholds (chunks.getD i default).value ⟨none, some b⟩ =
          decide ((chunks.getD i default).value ≤ b) := by
        simp [value_matches_thresholds]
      rw [this]
      rw [Bool.eq_iff_iff]
      simp only [Bool.and_eq_true, decide_eq_true_eq]
      constructor
      · rintro ⟨_, h2⟩
        exact hB2 i h2
      · intro h2
        refine ⟨Nat.zero_le i, ?_⟩
        by_contra hcon
        push_neg at hcon
        exact absurd (hB3 i hcon hi) (not_lt.mpr h2)
    | none => simp at hb

/-! ## Claim C8: sub-second chunks and segments never contribute -/

/-- Every chunk emitted by the sensor chunk loop survived the
`duration < 1000 → continue` guard. -/
theorem sensor_chunk_loop_duration (cache : List (ℤ × Option ℚ)) (is_true : Bool) :
    ∀ (pairs : List (ℤ × ℤ)) (i : ℕ) (cur : Option ℚ),
      ∀ ch ∈ sensor_chunk_loop cache is_true pairs i cur, 1000 ≤ ch.duration := by
  intro pairs
  induction pairs with
  | nil =>
    intro i cur ch h
    simp [sensor_chunk_loop] at h
  | cons p rest ih =>
    intro i cur ch h
    obtain ⟨a, b⟩ := p
    by_cases hd : b - a < 1000
    · rw [show sensor_chunk_loop cache is_true ((a, b) :: rest) i cur =
          sensor_chunk_loop cache is_true rest (i + 1) cur from by
            simp only [sensor_chunk_loop]; rw [if_pos hd]] at h
      exact ih (i + 1) cur ch h
    · cases hc : sensor_value_refresh cache a i cur with
      | some v =>
        rw [show sensor_chunk_loop cache is_true ((a, b) :: rest) i cur =
            ⟨v, b - a, is_true⟩ ::
              sensor_chunk_loop cache is_true rest (i + 1)
                (sensor_value_refresh cache a i cur) from by
              simp only [sensor_chunk_loop]; rw [if_neg hd, hc]] at h
        rcases List.mem_cons.mp h with rfl | h
        · simpa using by omega
        · exact ih (i + 1) _ ch h
      | none =>
        rw [show sensor_chunk_loop cache is_true ((a, b) :: rest) i cur =
            sensor_chunk_loop cache is_true rest (i + 1)
              (sensor_value_refresh cache a i cur) from by
              simp only [sensor_chunk_loop]; rw [if_neg hd, hc]] at h
        exact ih (i + 1) _ ch h

/-- Every chunk produced by `create_sensor_period_chunks` lasts at least one
second. -/
theorem create_sensor_period_chunks_duration
    (entity_history : List HAHistoryEntry) (periods : List TimePeriod) :
    ∀ ch ∈ create_sensor_period_chunks entity_history periods, 1000 ≤ ch.duration := by
  intro ch h
  unfold create_sensor_period_chunks at h
  by_cases hempty : entity_history.isEmpty || periods.isEmpty
  · rw [if_pos hempty] at h
    simp at h
  · rw [if_neg hempty] at h
    rcases List.mem_flatMap.mp h with ⟨period, _, hch⟩
    unfold sensor_chunks_for_period at hch
    exact sensor_chunk_loop_duration _ _ _ _ _ ch hch

/-- Filtering out sub-second segments does not change the per-state maps
built by `collect_state_starts`: the fold skips them anyway. -/
theorem collect_state_starts_filter :
    ∀ (segments : List StateSegment)
      (maps : List (String × List ℤ) × List (String × List ℤ)),
      collect_state_starts
          (segments.filter (fun s => decide (1000 ≤ s.stop - s.start))) maps =
        collect_state_starts segments maps := by
  intro segments
  induction segments with
  | nil => intro maps; rfl
  | cons seg rest ih =>
    intro maps
    obtain ⟨tm, fm⟩ := maps
    by_cases hd : seg.stop - seg.start < 1000
    · have hf : decide (1000 ≤ seg.stop - seg.start) = false := by
        simp only [decide_eq_false_iff_not, not_le]
        omega
      rw [List.filter_cons, hf]
      rw [show collect_state_starts (seg :: rest) (tm, fm) =
          collect_state_starts rest (tm, fm) from by
            simp only [collect_state_starts]; rw [if_pos hd]]
      simpa using ih (tm, fm)
    · have hf : decide (1000 ≤ seg.stop - seg.start) = true := by
        simp only [decide_eq_true_eq]
        omega
      rw [List.filter_cons, hf]
      simp only [cond_true, ite_true]
      simp only [collect_state_starts]
      rw [if_neg hd, if_neg hd]
      by_cases ht : seg.is_true_period <;> simp [ht, ih]

/-- C8. No chunk or segment shorter than 1000 ms contributes anywhere:
(a) every chunk of the numeric path's `create_sensor_period_chunks` lasts at
least 1000 ms, so (b) every `(value, duration)` pair inside a
`NumericStats` — the pairs summed into matching and total durations — lasts
at least 1000 ms, and (c) the categorical path's `analyze_state_segments`
returns the same per-state occurrence counts whether or not sub-second
segments are first removed. -/
theorem C8_subsecond_never_contributes :
    (∀ (entity_history : List HAHistoryEntry) (periods : List TimePeriod),
      ∀ ch ∈ create_sensor_period_chunks entity_history periods, 1000 ≤ ch.duration) ∧
    (∀ (entity_history : List HAHistoryEntry) (periods : List TimePeriod)
        (stats : NumericStateStats),
      analyze_numeric_states entity_history periods = some stats →
      ∀ vd ∈ stats.true_chunks ++ stats.false_chunks, 1000 ≤ vd.duration) ∧
    (∀ segments : List StateSegment,
      analyze_state_segments segments =
        analyze_state_segments
          (segments.filter (fun s => decide (1000 ≤ s.stop - s.start)))) := by
  refine ⟨create_sensor_period_chunks_duration, ?_, ?_⟩
  · intro hist periods stats hsome vd hvd
    unfold analyze_numeric_states at hsome
    cases hall : create_sensor_period_chunks hist periods with
    | nil => rw [hall] at hsome; exact absurd hsome (by simp)
    | cons c0 crest =>
      rw [hall] at hsome
      have hstats := (Option.some.inj hsome).symm
      have hmem : ∀ c ∈ c0 :: crest, (1000 : ℤ) ≤ c.duration := by
        intro c hc
        exact create_sensor_period_chunks_duration hist periods c (hall ▸ hc)
      rcases List.mem_append.mp hvd with hv | hv
      · rw [hstats] at hv
        simp only at hv
        rcases List.mem_map.mp hv with ⟨c, hcf, rfl⟩
        exact hmem c (List.mem_filter.mp hcf).1
      · rw [hstats] at hv
        simp only at hv
        rcases List.mem_map.mp hv with ⟨c, hcf, rfl⟩
        exact hmem c (List.mem_filter.mp hcf).1
  · intro segments
    unfold analyze_state_segments
    rw [collect_state_starts_filter]

/-! ## Claim C10: clamping is total and keeps discrimination power in range -/

/-- Both components of the rational clamp lie in `[0.01, 0.99]`. -/
theorem clamp_q_bounds (p q : ℚ) :
    1 / 100 ≤ (clamp_preserve_discrimination p q).1 ∧
    (clamp_preserve_discrimination p q).1 ≤ 99 / 100 ∧
    1 / 100 ≤ (clamp_preserve_discrimination p q).2 ∧
    (clamp_preserve_discrimination p q).2 ≤ 99 / 100 := by
  unfold clamp_preserve_discrimination
  refine ⟨?_, ?_, ?_, ?_⟩
  · exact le_min (le_max_right _ _) (by norm_num)
  · exact min_le_right _ _
  · exact le_min (le_max_right _ _) (by norm_num)
  · exact min_le_right _ _

/-- The absolute difference of the two clamped probabilities lies in
`[0, 0.98]`. -/
theorem clamp_dp_bounds (p q : ℚ) :
    0 ≤ |(clamp_preserve_discrimination p q).1 - (clamp_preserve_discrimination p q).2| ∧
    |(clamp_preserve_discrimination p q).1 - (clamp_preserve_discrimination p q).2| ≤
      98 / 100 := by
  obtain ⟨h1, h2, h3, h4⟩ := clamp_q_bounds p q
  refine ⟨abs_nonneg _, abs_sub_le_iff.mpr ⟨by linarith, by linarith⟩⟩

/-- `prob.max(0.01).min(0.99)` over the full `f64` domain always yields a
finite value in `[0.01, 0.99]`; a NaN input yields exactly `0.01`. -/
theorem clamp_f64_single (a : F64) :
    ∃ x : ℚ, f64_min (f64_max a (F64.fin (1 / 100))) (F64.fin (99 / 100)) = F64.fin x ∧
      1 / 100 ≤ x ∧ x ≤ 99 / 100 ∧ (a = F64.nanv → x = 1 / 100) := by
  cases a with
  | nanv =>
    refine ⟨1 / 100, ?_, le_refl _, by norm_num, fun _ => rfl⟩
    simp [f64_max, f64_min]
    norm_num
  | pinf =>
    refine ⟨99 / 100, ?_, by norm_num, le_refl _, by simp⟩
    simp [f64_max, f64_min]
  | ninf =>
    refine ⟨1 / 100, ?_, le_refl _, by norm_num, by simp⟩
    simp [f64_max, f64_min]
    norm_num
  | fin q =>
    by_cases h1 : q ≤ 1 / 100
    · refine ⟨1 / 100, ?_, le_refl _, by norm_num, by simp⟩
      rw [show f64_max (F64.fin q) (F64.fin (1 / 100)) = F64.fin (1 / 100) from by
        simp only [f64_max]; rw [if_pos h1]]
      simp only [f64_min]
      rw [if_pos (by norm_num)]
    · push_neg at h1
      by_cases h2 : q ≤ 99 / 100
      · refine ⟨q, ?_, le_of_lt h1, h2, by simp⟩
        rw [show f64_max (F64.fin q) (F64.fin (1 / 100)) = F64.fin q from by
          simp only [f64_max]; rw [if_neg (not_le.mpr h1)]]
        simp only [f64_min]
        rw [if_pos h2]
      · push_neg at h2
        refine ⟨99 / 100, ?_, by norm_num, le_refl _, by simp⟩
        rw [show f64_max (F64.fin q) (F64.fin (1 / 100)) = F64.fin q from by
          simp only [f64_max]; rw [if_neg (not_le.mpr h1)]]
        simp only [f64_min]
        rw [if_neg (not_le.mpr h2)]

/-- `partial_cmp` of two finite f64 values is never `None`. -/
theorem f64_partial_cmp_fin_ne_none (p q : ℚ) :
    f64_partial_cmp (F64.fin p) (F64.fin q) ≠ none := by
  unfold f64_partial_cmp
  by_cases h1 : p < q
  · simp [h1]
  · by_cases h2 : q < p <;> simp [h1, h2]

/-- Every row built by `entity_rows` carries a discrimination power in
`[0, 0.98]` (both paths clamp before subtracting). -/
theorem entity_rows_dp_bounds (calculator : Calculator) (entity_id : String)
    (entity_history : List HAHistoryEntry) (periods : List TimePeriod)
    (n_true n_false : ℕ) :
    ∀ r ∈ (entity_rows calculator entity_id entity_history periods n_true n_false).1,
      0 ≤ r.discrimination_power ∧ r.discrimination_power ≤ 98 / 100 := by
  intro r hr
  unfold entity_rows at hr
  split at hr
  · split at hr
    · simp at hr
    · split at hr
      · simp only [List.mem_singleton] at hr
        subst hr
        exact clamp_dp_bounds _ _
      · simp at hr
  · simp only [List.mem_map] at hr
    rcases hr with ⟨p, _, rfl⟩
    exact clamp_dp_bounds _ _

/-- Every row accumulated by the entity loop carries a discrimination power
in `[0, 0.98]`. -/
theorem process_loop_dp_bounds (periods : List TimePeriod) (n_true n_false : ℕ) :
    ∀ (history : List (String × List HAHistoryEntry)) (calculator : Calculator),
      ∀ r ∈ (process_loop periods n_true n_false calculator history).1,
        0 ≤ r.discrimination_power ∧ r.discrimination_power ≤ 98 / 100 := by
  intro history
  induction history with
  | nil => intro calculator r hr; simp [process_loop] at hr
  | cons p rest ih =>
    intro calculator r hr
    obtain ⟨entity_id, entity_history⟩ := p
    by_cases he : entity_history.isEmpty
    · rw [show process_loop periods n_true n_false calculator
          ((entity_id, entity_history) :: rest) =
          process_loop periods n_true n_false calculator rest from by
            simp only [process_loop]; rw [if_pos he]] at hr
      exact ih calculator r hr
    · cases hrows : entity_rows calculator entity_id entity_history periods n_true n_false with
      | mk rows calculator' =>
        cases hloop : process_loop periods n_true n_false calculator' rest with
        | mk rows' calculator'' =>
          rw [show process_loop periods n_true n_false calculator
              ((entity_id, entity_history) :: rest) = (rows ++ rows', calculator'') from by
                simp only [process_loop]; rw [if_neg he, hrows, hloop]] at hr
          rcases List.mem_append.mp hr with h | h
          · have := entity_rows_dp_bounds calculator entity_id entity_history periods
              n_true n_false r
            rw [hrows] at this
            exact this h
          · have := ih calculator' r
            rw [hloop] at this
            exact this h

/-- C10. `clamp_preserve_discrimination` is total over the whole `f64`
domain: for every pair of inputs, NaN and infinities included, both outputs
are finite values in `[0.01, 0.99]` (NaN inputs map to `0.01`, so
`partial_cmp` on the outputs is never `None`); consequently every
`discrimination_power` stored in a result row of `process_entities` is a
non-NaN value in `[0, 0.98]`, and the final descending sort's comparator
never sees an incomparable pair. -/
theorem C10_clamp_safety :
    (∀ a b : F64,
      (∃ qa : ℚ, (clamp_preserve_discrimination_f64 a b).1 = F64.fin qa ∧
          1 / 100 ≤ qa ∧ qa ≤ 99 / 100 ∧ (a = F64.nanv → qa = 1 / 100)) ∧
      (∃ qb : ℚ, (clamp_preserve_discrimination_f64 a b).2 = F64.fin qb ∧
          1 / 100 ≤ qb ∧ qb ≤ 99 / 100 ∧ (b = F64.nanv → qb = 1 / 100)) ∧
      f64_partial_cmp (clamp_preserve_discrimination_f64 a b).1
          (clamp_preserve_discrimination_f64 a b).2 ≠ none) ∧
    (∀ (calculator : Calculator) (history : List (String × List HAHistoryEntry))
        (periods : List TimePeriod) (res : List EntityProbability)
        (calculator' : Calculator),
      process_entities calculator history periods = Except.ok (res, calculator') →
      ∀ r ∈ res, 0 ≤ r.discrimination_power ∧ r.discrimination_power ≤ 98 / 100) := by
  constructor
  · intro a b
    obtain ⟨qa, hqa, hqa1, hqa2, hqan⟩ := clamp_f64_single a
    obtain ⟨qb, hqb, hqb1, hqb2, hqbn⟩ := clamp_f64_single b
    refine ⟨⟨qa, hqa, hqa1, hqa2, hqan⟩, ⟨qb, hqb, hqb1, hqb2, hqbn⟩, ?_⟩
    show f64_partial_cmp (clamp_preserve_discrimination_f64 a b).1
        (clamp_preserve_discrimination_f64 a b).2 ≠ none
    have e1 : (clamp_preserve_discrimination_f64 a b).1 = F64.fin qa := hqa
    have e2 : (clamp_preserve_discrimination_f64 a b).2 = F64.fin qb := hqb
    rw [e1, e2]
    exact f64_partial_cmp_fin_ne_none qa qb
  · intro calculator history periods res calculator' h r hr
    unfold process_entities at h
    by_cases hg : (periods.filter (fun p => p.is_true_period)).isEmpty ||
        (periods.filter (fun p => !p.is_true_period)).isEmpty
    · rw [if_pos hg] at h
      exact absurd h (by simp)
    · rw [if_neg hg] at h
      cases hloop : process_loop periods (periods.filter (fun p => p.is_true_period)).length
          (periods.filter (fun p => !p.is_true_period)).length calculator history with
      | mk rows calculator'' =>
        rw [hloop] at h
        have hres : res = List.insertionSort
            (fun a b => b.discrimination_power ≤ a.discrimination_power) rows :=
          (congrArg Prod.fst (Except.ok.inj h)).symm
        have hmem : r ∈ rows := by
          have hperm := List.perm_insertionSort
            (fun a b : EntityProbability =>
              b.discrimination_power ≤ a.discrimination_power) rows
          exact hperm.mem_iff.mp (hres ▸ hr)
        have := process_loop_dp_bounds periods
          (periods.filter (fun p => p.is_true_period)).length
          (periods.filter (fun p => !p.is_true_period)).length history calculator r
        rw [hloop] at this
        exact this hmem

/-! ## Claim C4: failure surface of `process_entities` -/

/-- C4. `process_entities` fails — with the input-validation error and
no result list — exactly when the period list has no TRUE or no FALSE
member; with both polarities present it always returns `Except.ok`.  Other
anomalies degrade per entity: an entity with an empty history contributes
nothing and changes nothing, a numeric entity whose chunk analysis comes
back empty contributes nothing and changes nothing, and an unparsable
timestamp is replaced by epoch 0 instead of failing. -/
theorem C4_process_entities_error_surface :
    (∀ (calculator : Calculator) (history : List (String × List HAHistoryEntry))
        (periods : List TimePeriod),
      ((periods.filter (fun p => p.is_true_period) = [] ∨
          periods.filter (fun p => !p.is_true_period) = []) →
        process_entities calculator history periods =
          Except.error "Need at least one TRUE and one FALSE period") ∧
      (periods.filter (fun p => p.is_true_period) ≠ [] →
        periods.filter (fun p => !p.is_true_period) ≠ [] →
        ∃ res calculator', process_entities calculator history periods =
          Except.ok (res, calculator'))) ∧
    (∀ (calculator : Calculator) (entity_id : String)
        (rest : List (String × List HAHistoryEntry)) (periods : List TimePeriod),
      process_entities calculator ((entity_id, []) :: rest) periods =
        process_entities calculator rest periods) ∧
    (∀ (calculator : Calculator) (entity_id : String)
        (entity_history : List HAHistoryEntry)
        (rest : List (String × List HAHistoryEntry)) (periods : List TimePeriod),
      is_numeric_entity entity_history = true →
      analyze_numeric_states entity_history periods = none →
      process_entities calculator ((entity_id, entity_history) :: rest) periods =
        process_entities calculator rest periods) ∧
    (∀ s : String, parse_rfc3339_millis s = none → parse_timestamp s = 0) := by
  refine ⟨?_, ?_, ?_, ?_⟩
  · intro calculator history periods
    constructor
    · intro h
      unfold process_entities
      rw [if_pos]
      rcases h with h | h <;> simp [h]
    · intro h1 h2
      unfold process_entities
      rw [if_neg (by simp [h1, h2])]
      cases hl : process_loop periods (periods.filter (fun p => p.is_true_period)).length
          (periods.filter (fun p => !p.is_true_period)).length calculator history with
      | mk rows calculator' =>
        exact ⟨List.insertionSort
          (fun a b => b.discrimination_power ≤ a.discrimination_power) rows,
          calculator', rfl⟩
  · intro calculator entity_id rest periods
    unfold process_entities
    by_cases hg : (periods.filter (fun p => p.is_true_period)).isEmpty ||
        (periods.filter (fun p => !p.is_true_period)).isEmpty
    · rw [if_pos hg, if_pos hg]
    · rw [if_neg hg, if_neg hg]
      rw [show process_loop periods (periods.filter (fun p => p.is_true_period)).length
          (periods.filter (fun p => !p.is_true_period)).length calculator
          ((entity_id, []) :: rest) =
          process_loop periods (periods.filter (fun p => p.is_true_period)).length
            (periods.filter (fun p => !p.is_true_period)).length calculator rest from by
        simp only [process_loop]
        rw [if_pos (show ([] : List HAHistoryEntry).isEmpty = true from rfl)]]
  · intro calculator entity_id entity_history rest periods h1 h2
    have hne : entity_history.isEmpty = false := by
      cases entity_history with
      | nil => exact absurd h1 (by simp [is_numeric_entity])
      | cons a l => rfl
    unfold process_entities
    by_cases hg : (periods.filter (fun p => p.is_true_period)).isEmpty ||
        (periods.filter (fun p => !p.is_true_period)).isEmpty
    · rw [if_pos hg, if_pos hg]
    · rw [if_neg hg, if_neg hg]
      have hrows : entity_rows calculator entity_id entity_history periods
          (periods.filter (fun p => p.is_true_period)).length
          (periods.filter (fun p => !p.is_true_period)).length = ([], calculator) := by
        unfold entity_rows
        rw [if_pos h1, h2]
      rw [show process_loop periods (periods.filter (fun p => p.is_true_period)).length
          (periods.filter (fun p => !p.is_true_period)).length calculator
          ((entity_id, entity_history) :: rest) =
          process_loop periods (periods.filter (fun p => p.is_true_period)).length
            (periods.filter (fun p => !p.is_true_period)).length calculator rest from by
        simp only [process_loop]
        rw [if_neg (by simp [hne]), hrows]
        cases hl : process_loop periods (periods.filter (fun p => p.is_true_period)).length
            (periods.filter (fun p => !p.is_true_period)).length calculator rest with
        | mk rows' calculator'' => simp]
  · intro s h
    unfold parse_timestamp
    rw [h]
    rfl

section RatEval

/- The Batteries rational-number operations are `@[irreducible]`, which
blocks `decide`-style kernel evaluation of the executable definitions at
concrete inputs; within this section they are restored to their natural
reducibility.  (The kernel itself ignores reducibility attributes, so this
affects elaboration only.) -/
attribute [local semireducible] Rat.add Rat.mul Rat.inv Rat.sub Rat.ofScientific

/-- Counterexample to C1 as stated: the claim quantifies over every
`NumericStats` with non-empty chunk lists, but with `is_numeric = false`
(a value the `NumericStats` type admits) the search is skipped entirely and
the returned `{none, none}` scores 0, strictly below the above-only
candidate 0 (which is in the candidate list and scores 1). -/
theorem C1_counterexample :
    find_optimal_numeric_thresholds
        ⟨false, some 0, some 10, [⟨0, 1000⟩], [⟨10, 1000⟩]⟩ = ⟨none, none⟩ ∧
    (0 : ℚ) ∈ candidate_thresholds ⟨false, some 0, some 10, [⟨0, 1000⟩], [⟨10, 1000⟩]⟩ ∧
    threshold_eval_score ⟨false, some 0, some 10, [⟨0, 1000⟩], [⟨10, 1000⟩]⟩
        ⟨none, none⟩ <
      threshold_eval_score ⟨false, some 0, some 10, [⟨0, 1000⟩], [⟨10, 1000⟩]⟩
        ⟨some 0, none⟩ := by
  refine ⟨rfl, ?_, ?_⟩ <;> decide

/-- Witness for C1 at a concrete two-value input. -/
theorem C1_optimal_threshold_argmax_witness :
    (∀ c ∈ candidate_thresholds ⟨true, some 0, some 10, [⟨0, 1000⟩], [⟨10, 1000⟩]⟩,
        threshold_eval_score ⟨true, some 0, some 10, [⟨0, 1000⟩], [⟨10, 1000⟩]⟩
            ⟨some c, none⟩ ≤
          threshold_eval_score ⟨true, some 0, some 10, [⟨0, 1000⟩], [⟨10, 1000⟩]⟩
            (find_optimal_numeric_thresholds
              ⟨true, some 0, some 10, [⟨0, 1000⟩], [⟨10, 1000⟩]⟩) ∧
        threshold_eval_score ⟨true, some 0, some 10, [⟨0, 1000⟩], [⟨10, 1000⟩]⟩
            ⟨none, some c⟩ ≤
          threshold_eval_score ⟨true, some 0, some 10, [⟨0, 1000⟩], [⟨10, 1000⟩]⟩
            (find_optimal_numeric_thresholds
              ⟨true, some 0, some 10, [⟨0, 1000⟩], [⟨10, 1000⟩]⟩)) ∧
    (∃ l1 l2,
      evaluation_order ⟨true, some 0, some 10, [⟨0, 1000⟩], [⟨10, 1000⟩]⟩ =
        l1 ++ find_optimal_numeric_thresholds
          ⟨true, some 0, some 10, [⟨0, 1000⟩], [⟨10, 1000⟩]⟩ :: l2 ∧
      (∀ u ∈ l1, threshold_eval_score ⟨true, some 0, some 10, [⟨0, 1000⟩], [⟨10, 1000⟩]⟩ u <
          threshold_eval_score ⟨true, some 0, some 10, [⟨0, 1000⟩], [⟨10, 1000⟩]⟩
            (find_optimal_numeric_thresholds
              ⟨true, some 0, some 10, [⟨0, 1000⟩], [⟨10, 1000⟩]⟩)) ∧
      (∀ u ∈ l2, threshold_eval_score ⟨true, some 0, some 10, [⟨0, 1000⟩], [⟨10, 1000⟩]⟩ u ≤
          threshold_eval_score ⟨true, some 0, some 10, [⟨0, 1000⟩], [⟨10, 1000⟩]⟩
            (find_optimal_numeric_thresholds
              ⟨true, some 0, some 10, [⟨0, 1000⟩], [⟨10, 1000⟩]⟩))) :=
  C1_optimal_threshold_argmax ⟨true, some 0, some 10, [⟨0, 1000⟩], [⟨10, 1000⟩]⟩
    rfl (by decide) (by decide)

/-- Counterexample to C2 as stated: a history whose single sampled
observation is the sentinel `"unavailable"` is classified *numeric*
(`0 ≥ (1 as f64 * 0.7) as usize = 0`), where the claim requires an
all-sentinel history to be classified categorical. -/
theorem C2_counterexample :
    (∀ e ∈ [HAHistoryEntry.mk "unavailable" "" "" none],
        e.state = "unavailable" ∨ e.state = "unknown") ∧
    is_numeric_entity [HAHistoryEntry.mk "unavailable" "" "" none] = true := by
  constructor
  · intro e he
    rw [List.mem_singleton] at he
    subst he
    exact Or.inl rfl
  · decide

/-- Counterexample to C5 as stated: for the threshold pair `(none, none)`
(which the claim's "every threshold pair" includes), on the sorted singleton
chunk list the binary-search path counts the whole duration (its bounds
default to the full index range) while `value_matches_thresholds` matches no
value, so the naive sum is 0. -/
theorem C5_counterexample :
    List.Sorted (fun a b : ValueDuration => a.value ≤ b.value) [⟨0, 1000⟩] ∧
    (calculate_chunks_in_range [⟨0, 1000⟩] none none).matching_duration = 1000 ∧
    ((([⟨0, 1000⟩] : List ValueDuration).filter
        (fun c => value_matches_thresholds c.value ⟨none, none⟩)).map
      (fun c => c.duration)).sum = 0 := by
  refine ⟨?_, ?_, ?_⟩
  · simp
  · rfl
  · rfl

/-- Witness for C5 at a concrete sorted two-chunk list with an above-only
threshold. -/
theorem C5_chunks_in_range_eq_naive_witness :
    (calculate_chunks_in_range [⟨1, 1000⟩, ⟨2, 2000⟩] (some 1) none).matching_duration =
      ((([⟨1, 1000⟩, ⟨2, 2000⟩] : List ValueDuration).filter
          (fun c => value_matches_thresholds c.value ⟨some 1, none⟩)).map
        (fun c => c.duration)).sum :=
  C5_chunks_in_range_eq_naive [⟨1, 1000⟩, ⟨2, 2000⟩] (some 1) none
    (by simp) (Or.inl rfl)

/-- C3 (code bug), evaluated at the failing input.  One categorical
entity observes states `A@0s`, `B@2s`, `A@3s`; there is a single TRUE period
`[0s, 5s)` and a single FALSE period `[10s, 11s)`.  The state `A` occupies
two separate segments (`[0s,2s)` and `[3s,5s)`) inside the *one* TRUE
period, and `analyze_state_segments` — which `process_entities` calls —
keys its "period" sets by *segment start time*, so the returned row for `A`
reports `true_occurrences = 2` while `total_true_periods = 1`: the
occurrence count both double-counts a state within one period and exceeds
the number of periods of that polarity, contradicting the claim (and the
spec's period-boundary-key description, which matches the unused
`analyze_state_segments_with_periods` of the source instead). -/
theorem C3_code_bug_segment_start_counting :
    process_entities ⟨[]⟩
        [("e", [⟨"A", "1970-01-01T00:00:00Z", "1970-01-01T00:00:00Z", none⟩,
                ⟨"B", "1970-01-01T00:00:02Z", "1970-01-01T00:00:02Z", none⟩,
                ⟨"A", "1970-01-01T00:00:03Z", "1970-01-01T00:00:03Z", none⟩])]
        [⟨"p1", "1970-01-01T00:00:00Z", "1970-01-01T00:00:05Z", true, none⟩,
         ⟨"p2", "1970-01-01T00:00:10Z", "1970-01-01T00:00:11Z", false, none⟩] =
      Except.ok
        ([⟨"e", "B", 99 / 100, 1 / 100, 49 / 50, 1, 0, 1, 1, none, none⟩,
          ⟨"e", "A", 99 / 100, 99 / 100, 0, 2, 1, 1, 1, none, none⟩], ⟨[]⟩) := by
  decide

/-- Witness for C4 at concrete inputs: an empty period list fails with the
input-validation error, and a malformed timestamp parses to epoch 0. -/
theorem C4_process_entities_error_surface_witness :
    process_entities ⟨[]⟩ [] [] =
      Except.error "Need at least one TRUE and one FALSE period" ∧
    parse_timestamp "not-a-timestamp" = 0 :=
  ⟨(C4_process_entities_error_surface.1 ⟨[]⟩ [] []).1 (Or.inl rfl),
   C4_process_entities_error_surface.2.2.2 "not-a-timestamp" (by decide)⟩

/-- Witness for C8 at a concrete input producing one chunk. -/
theorem C8_subsecond_never_contributes_witness :
    (1000 : ℤ) ≤ (SensorChunk.mk 5 2000 true).duration :=
  C8_subsecond_never_contributes.1
    [⟨"5", "1970-01-01T00:00:00Z", "1970-01-01T00:00:00Z", none⟩]
    [⟨"p", "1970-01-01T00:00:00Z", "1970-01-01T00:00:02Z", true, none⟩]
    ⟨5, 2000, true⟩ (by decide)

/-- Witness for C10: the NaN/+∞ clamp case, and the row bound at a concrete
two-period categorical run. -/
theorem C10_clamp_safety_witness :
    ((∃ qa : ℚ, (clamp_preserve_discrimination_f64 F64.nanv F64.pinf).1 = F64.fin qa ∧
        1 / 100 ≤ qa ∧ qa ≤ 99 / 100 ∧ (F64.nanv = F64.nanv → qa = 1 / 100)) ∧
      (∃ qb : ℚ, (clamp_preserve_discrimination_f64 F64.nanv F64.pinf).2 = F64.fin qb ∧
        1 / 100 ≤ qb ∧ qb ≤ 99 / 100 ∧ (F64.pinf = F64.nanv → qb = 1 / 100)) ∧
      f64_partial_cmp (clamp_preserve_discrimination_f64 F64.nanv F64.pinf).1
          (clamp_preserve_discrimination_f64 F64.nanv F64.pinf).2 ≠ none) ∧
    (0 ≤ (EntityProbability.mk "e" "on" (99 / 100) (99 / 100) 0 2 1 1 1 none
        none).discrimination_power ∧
      (EntityProbability.mk "e" "on" (99 / 100) (99 / 100) 0 2 1 1 1 none
        none).discrimination_power ≤ 98 / 100) :=
  ⟨C10_clamp_safety.1 F64.nanv F64.pinf,
   C10_clamp_safety.2 ⟨[]⟩
     [("e", [⟨"on", "1970-01-01T00:00:00Z", "1970-01-01T00:00:00Z", none⟩,
             ⟨"on", "1970-01-01T00:00:01Z", "1970-01-01T00:00:01Z", none⟩])]
     [⟨"p1", "1970-01-01T00:00:00Z", "1970-01-01T00:00:02Z", true, none⟩,
      ⟨"p2", "1970-01-01T00:00:10Z", "1970-01-01T00:00:12Z", false, none⟩]
     [⟨"e", "on", 99 / 100, 99 / 100, 0, 2, 1, 1, 1, none, none⟩] ⟨[]⟩
     (by decide)
     (EntityProbability.mk "e" "on" (99 / 100) (99 / 100) 0 2 1 1 1 none none)
     (by decide)⟩

end RatEval

end BayesianGen
